import Mathlib

/-!
Verification of the OSM ingestion-and-reconstruction pipeline of the
GoogleMapsClone repository: a shallow embedding in Lean 4 of the streaming
XML readers (src/open_street_map/readers.rs), the entity model
(src/member.rs, src/osm_entities/node.rs, src/relation.rs, the Way variant
used by those files), the batched SQLite bulk inserters
(src/database/inserters.rs), the schema constraints (src/database/tables.rs)
and the denormalizing fetchers plus row decoders (src/database/fetchers.rs,
FromRow impls), together with theorems settling the frozen claims.

Modelling conventions:
- Rust i64 / i32 are Lean Int with explicit range side conditions where a
  textual round trip through SQLite matters.
- Rust f64 is modelled opaquely (structure F64): no claim under scrutiny
  depends on floating-point arithmetic, only on pass-through of stored
  values and on the literal default 0.0.
- The SQLite store is modelled as ordered row lists per table; INSERT OR
  IGNORE appends a row when no existing row has the same primary key and the
  table CHECK constraint holds; GROUP_CONCAT folds cells in table (rowid)
  order, the deterministic behaviour of the unordered aggregation the
  queries in fetchers.rs rely on.
- The quick-xml event stream is modelled as a list of start / self-closing
  events with already-UTF-8-decoded names and attributes.
- Recursive functions that a witness must evaluate are written with a
  structural fuel argument so that they reduce inside the kernel.
-/

/-! ## Small string machinery (Rust split / splitn on a separator char) -/

/-- Break a character list at the first occurrence of the separator:
returns the (separator-free) prefix and the remainder after the separator,
or none when the separator does not occur. -/
def breakSep (sep : Char) : List Char → Option (List Char × List Char)
  | [] => none
  | c :: cs =>
    if c = sep then some ([], cs)
    else (breakSep sep cs).map (fun p => (c :: p.1, p.2))

/-- Fuel-driven body of splitChars; the fuel only has to dominate the
number of separators in the input. -/
def splitCharsAux (sep : Char) : Nat → List Char → List (List Char)
  | 0, s => [s]
  | fuel + 1, s =>
    match breakSep sep s with
    | none => [s]
    | some (pre, post) => pre :: splitCharsAux sep fuel post

/-- Rust str::split on a single char, on character lists: every maximal
separator-free run, including empty runs at the ends and between adjacent
separators. -/
def splitChars (sep : Char) (s : List Char) : List (List Char) :=
  splitCharsAux sep s.length s

/-- Rust str::splitn on a single char: at most n pieces, the last piece
being the unsplit remainder. -/
def splitnChars (sep : Char) : Nat → List Char → List (List Char)
  | 0, _ => []
  | 1, s => [s]
  | n + 2, s =>
    match breakSep sep s with
    | none => [s]
    | some (pre, post) => pre :: splitnChars sep (n + 1) post

/-- String wrapper for splitChars. -/
def splitStr (sep : Char) (s : String) : List String :=
  (splitChars sep s.data).map String.mk

/-- String wrapper for splitnChars. -/
def splitnStr (sep : Char) (n : Nat) (s : String) : List String :=
  (splitnChars sep n s.data).map String.mk

/-- Join a list of strings with a separator string, the shape produced by
SQLite GROUP_CONCAT(x, sep). -/
def joinSep (sep : String) : List String → String
  | [] => ""
  | [x] => x
  | x :: y :: xs => x ++ sep ++ joinSep sep (y :: xs)

/-- A character list avoiding a given character. -/
def sepFree (sep : Char) (s : List Char) : Prop := sep ∉ s

instance (sep : Char) (s : List Char) : Decidable (sepFree sep s) := by
  unfold sepFree; infer_instance

/-- Separator-freeness of a string. -/
def sepFreeStr (sep : Char) (s : String) : Prop := sepFree sep s.data

instance (sep : Char) (s : String) : Decidable (sepFreeStr sep s) := by
  unfold sepFreeStr; infer_instance

theorem sepFree_cons {sep c : Char} {cs : List Char} :
    sepFree sep (c :: cs) ↔ c ≠ sep ∧ sepFree sep cs := by
  simp only [sepFree, List.mem_cons, not_or]
  exact and_congr_left (fun _ => ⟨fun h hc => h hc.symm, fun h hc => h hc.symm⟩)

theorem breakSep_none (sep : Char) {s : List Char} (h : sepFree sep s) :
    breakSep sep s = none := by
  induction s with
  | nil => rfl
  | cons c cs ih =>
    obtain ⟨hc, hcs⟩ := sepFree_cons.mp h
    simp [breakSep, hc, ih hcs]

theorem breakSep_eq_none {sep : Char} :
    ∀ {s : List Char}, breakSep sep s = none → sepFree sep s := by
  intro s
  induction s with
  | nil => intro _; simp [sepFree]
  | cons c cs ih =>
    intro h
    by_cases hc : c = sep
    · simp [breakSep, hc] at h
    · rw [breakSep, if_neg hc] at h
      cases hbr : breakSep sep cs with
      | none => exact sepFree_cons.mpr ⟨hc, ih hbr⟩
      | some p => rw [hbr] at h; simp at h

theorem breakSep_append (sep : Char) {pre : List Char} (post : List Char)
    (h : sepFree sep pre) :
    breakSep sep (pre ++ sep :: post) = some (pre, post) := by
  induction pre with
  | nil => simp [breakSep]
  | cons c cs ih =>
    obtain ⟨hc, hcs⟩ := sepFree_cons.mp h
    simp [breakSep, hc, ih hcs]

theorem breakSep_eq_some {sep : Char} :
    ∀ {s pre post : List Char}, breakSep sep s = some (pre, post) →
      s = pre ++ sep :: post ∧ sepFree sep pre := by
  intro s
  induction s with
  | nil => intro pre post h; simp [breakSep] at h
  | cons c cs ih =>
    intro pre post h
    by_cases hc : c = sep
    · subst hc
      rw [breakSep, if_pos rfl] at h
      obtain ⟨h1, h2⟩ := Prod.mk.injEq .. ▸ Option.some_inj.mp h
      subst h1; subst h2
      exact ⟨rfl, by simp [sepFree]⟩
    · rw [breakSep, if_neg hc] at h
      cases hbr : breakSep sep cs with
      | none => rw [hbr] at h; exact absurd h (by simp)
      | some p =>
        rw [hbr] at h
        have hmap : Option.map (fun q : List Char × List Char => (c :: q.1, q.2)) (some p)
            = some (c :: p.1, p.2) := rfl
        rw [hmap] at h
        have h2 := Option.some_inj.mp h
        obtain ⟨hs, hfree⟩ := ih
          (show breakSep sep cs = some (p.1, p.2) by rw [hbr])
        have hpre : pre = c :: p.1 := (congrArg Prod.fst h2).symm
        have hpost : post = p.2 := (congrArg Prod.snd h2).symm
        subst hpre; subst hpost
        exact ⟨by simp [hs], sepFree_cons.mpr ⟨hc, hfree⟩⟩

theorem splitCharsAux_sepFree (sep : Char) (fuel : Nat) {s : List Char}
    (h : sepFree sep s) : splitCharsAux sep fuel s = [s] := by
  cases fuel with
  | zero => rfl
  | succ n => simp [splitCharsAux, breakSep_none sep h]

/-- Count of separator occurrences. -/
def sepCount (sep : Char) (s : List Char) : Nat := s.countP (· = sep)

theorem sepCount_append_cons (sep : Char) (pre post : List Char)
    (h : sepFree sep pre) :
    sepCount sep (pre ++ sep :: post) = sepCount sep post + 1 := by
  unfold sepCount
  rw [List.countP_append, List.countP_cons]
  have hpre : pre.countP (· = sep) = 0 := by
    rw [List.countP_eq_zero]
    intro a ha
    simp only [decide_eq_true_eq]
    intro hEq
    exact absurd ha (by rw [hEq]; exact h)
  simp [hpre]

/-- The fuel of splitCharsAux is irrelevant once it dominates the
separator count. -/
theorem splitCharsAux_congr (sep : Char) :
    ∀ fuel₁ fuel₂ (s : List Char), sepCount sep s ≤ fuel₁ →
      sepCount sep s ≤ fuel₂ →
      splitCharsAux sep fuel₁ s = splitCharsAux sep fuel₂ s := by
  intro fuel₁
  induction fuel₁ with
  | zero =>
    intro fuel₂ s h₁ _
    have hs : sepFree sep s := by
      intro hm
      have h0 : 0 < sepCount sep s := List.countP_pos_iff.mpr ⟨sep, hm, by simp⟩
      omega
    rw [splitCharsAux_sepFree sep 0 hs, splitCharsAux_sepFree sep fuel₂ hs]
  | succ n ih =>
    intro fuel₂ s h₁ h₂
    match hbr : breakSep sep s with
    | none =>
      have hs := breakSep_eq_none hbr
      rw [splitCharsAux_sepFree sep (n + 1) hs, splitCharsAux_sepFree sep fuel₂ hs]
    | some (pre, post) =>
      obtain ⟨hs, hfree⟩ := breakSep_eq_some hbr
      have hcount : sepCount sep s = sepCount sep post + 1 := by
        rw [hs]; exact sepCount_append_cons sep pre post hfree
      cases fuel₂ with
      | zero => omega
      | succ m =>
        simp only [splitCharsAux, hbr]
        exact congrArg (pre :: ·) (ih m post (by omega) (by omega))

theorem sepCount_le_length (sep : Char) (s : List Char) :
    sepCount sep s ≤ s.length := List.countP_le_length _

/-- Unfolding rule for splitChars at a leading separator-free prefix. -/
theorem splitChars_append (sep : Char) {pre : List Char} (post : List Char)
    (h : sepFree sep pre) :
    splitChars sep (pre ++ sep :: post) = pre :: splitChars sep post := by
  unfold splitChars
  have hlen : (pre ++ sep :: post).length = pre.length + post.length + 1 := by
    simp; omega
  rw [hlen]
  have : splitCharsAux sep (pre.length + post.length + 1) (pre ++ sep :: post)
      = splitCharsAux sep (sepCount sep (pre ++ sep :: post)) (pre ++ sep :: post) := by
    apply splitCharsAux_congr
    · calc sepCount sep (pre ++ sep :: post) ≤ (pre ++ sep :: post).length :=
            sepCount_le_length _ _
        _ = pre.length + post.length + 1 := hlen
    · exact le_refl _
  rw [this]
  rw [sepCount_append_cons sep pre post h]
  simp only [splitCharsAux, breakSep_append sep post h]
  exact congrArg (pre :: ·) (splitCharsAux_congr sep _ _ post
    (sepCount_le_length sep post) (sepCount_le_length sep post) ▸
    splitCharsAux_congr sep (sepCount sep post) post.length post (le_refl _)
      (sepCount_le_length sep post))

theorem splitChars_sepFree (sep : Char) {s : List Char} (h : sepFree sep s) :
    splitChars sep s = [s] := splitCharsAux_sepFree sep _ h

/-- Character-list form of joinSep. -/
def joinChars (sep : Char) : List (List Char) → List Char
  | [] => []
  | [x] => x
  | x :: y :: xs => x ++ sep :: joinChars sep (y :: xs)

/-- Splitting a separator-joined list of separator-free cells recovers the
cells, provided there is at least one cell (the empty join is the encoding
of an absent aggregate, not of an empty cell list). -/
theorem splitChars_joinChars (sep : Char) :
    ∀ cells : List (List Char), cells ≠ [] →
      (∀ c ∈ cells, sepFree sep c) →
      splitChars sep (joinChars sep cells) = cells := by
  intro cells
  induction cells with
  | nil => intro h; exact absurd rfl h
  | cons x xs ih =>
    intro _ hfree
    cases xs with
    | nil =>
      exact splitChars_sepFree sep (hfree x (by simp))
    | cons y ys =>
      have hx : sepFree sep x := hfree x (by simp)
      have hrest : ∀ c ∈ y :: ys, sepFree sep c := fun c hc => hfree c (by simp [hc])
      rw [joinChars, splitChars_append sep _ hx, ih (by simp) hrest]

theorem splitnChars_length (sep : Char) :
    ∀ n s, 1 ≤ n → (splitnChars sep n s).length ≤ n := by
  intro n
  induction n with
  | zero => intro s h; omega
  | succ m ih =>
    intro s _
    cases m with
    | zero => simp [splitnChars]
    | succ k =>
      show (splitnChars sep (k + 2) s).length ≤ k + 2
      rw [splitnChars]
      match hbr : breakSep sep s with
      | none => simp
      | some (pre, post) =>
        have := ih post (by omega)
        simpa using by omega

theorem splitnChars_sepFree (sep : Char) (n : Nat) (hn : 1 ≤ n)
    {s : List Char} (h : sepFree sep s) : splitnChars sep n s = [s] := by
  cases n with
  | zero => omega
  | succ m =>
    cases m with
    | zero => rfl
    | succ k => rw [splitnChars, breakSep_none sep h]

theorem splitnChars_append (sep : Char) (n : Nat) {pre : List Char}
    (post : List Char) (h : sepFree sep pre) :
    splitnChars sep (n + 2) (pre ++ sep :: post)
      = pre :: splitnChars sep (n + 1) post := by
  rw [splitnChars, breakSep_append sep post h]

/-! ## Integer text: Rust i64 parsing and SQLite decimal rendering -/

/-- Fold a digit-character run into a natural number; any non-digit fails
(Rust FromStr for the unsigned digit part). -/
def natDigitsAcc : List Char → Nat → Option Nat
  | [], acc => some acc
  | c :: cs, acc =>
    if c.isDigit then natDigitsAcc cs (acc * 10 + (c.toNat - 48)) else none

/-- Nonempty all-digit run to Nat; an empty run fails (Rust rejects bare
signs and empty strings). -/
def parseNatDigits : List Char → Option Nat
  | [] => none
  | c :: cs => natDigitsAcc (c :: cs) 0

/-- Range gate for the nonnegative i64 parse result. -/
def i64pos (n : Nat) : Option Int :=
  if n ≤ 2 ^ 63 - 1 then some (n : Int) else none

/-- Range gate for the negated i64 parse result. -/
def i64neg (n : Nat) : Option Int :=
  if n ≤ 2 ^ 63 then some (-(n : Int)) else none

/-- Rust str::parse into i64: optional sign, a nonempty digit run, and the
two-complement range check. -/
def parseI64 (s : String) : Option Int :=
  match s.data with
  | [] => none
  | c :: cs =>
    if c = '+' then (parseNatDigits cs).bind i64pos
    else if c = '-' then (parseNatDigits cs).bind i64neg
    else (parseNatDigits (c :: cs)).bind i64pos

/-- Range gate for the nonnegative i32 parse result. -/
def i32pos (n : Nat) : Option Int :=
  if n ≤ 2 ^ 31 - 1 then some (n : Int) else none

/-- Range gate for the negated i32 parse result. -/
def i32neg (n : Nat) : Option Int :=
  if n ≤ 2 ^ 31 then some (-(n : Int)) else none

/-- Rust str::parse into i32. -/
def parseI32 (s : String) : Option Int :=
  match s.data with
  | [] => none
  | c :: cs =>
    if c = '+' then (parseNatDigits cs).bind i32pos
    else if c = '-' then (parseNatDigits cs).bind i32neg
    else (parseNatDigits (c :: cs)).bind i32pos

/-- Most-significant-first decimal digits of a positive Nat; fuel-driven
so that it reduces in the kernel (fuel at least n suffices). -/
def natToDecAux : Nat → Nat → List Char
  | 0, _ => []
  | fuel + 1, n =>
    if n = 0 then [] else natToDecAux fuel (n / 10) ++ [Nat.digitChar (n % 10)]

/-- Decimal rendering of a Nat, as SQLite renders integers into text. -/
def natToDecString (n : Nat) : String :=
  if n = 0 then "0" else String.mk (natToDecAux n n)

/-- Decimal rendering of an Int (SQLite integer-to-text conversion as used
by the || concatenations in the fetch queries). -/
def intToDecString (i : Int) : String :=
  if i < 0 then "-" ++ natToDecString (-i).toNat else natToDecString i.toNat

theorem digitChar_isDigit {r : Nat} (h : r < 10) :
    (Nat.digitChar r).isDigit = true := by
  interval_cases r <;> decide

theorem digitChar_toNat {r : Nat} (h : r < 10) :
    (Nat.digitChar r).toNat - 48 = r := by
  interval_cases r <;> decide

theorem natDigitsAcc_append (l₁ l₂ : List Char) (acc : Nat) :
    natDigitsAcc (l₁ ++ l₂) acc
      = (natDigitsAcc l₁ acc).bind (fun a => natDigitsAcc l₂ a) := by
  induction l₁ generalizing acc with
  | nil => simp [natDigitsAcc]
  | cons c cs ih =>
    by_cases hd : c.isDigit
    · simp [natDigitsAcc, hd, ih]
    · simp [natDigitsAcc, hd]

theorem natToDecAux_eval :
    ∀ fuel n acc, n ≤ fuel →
      natDigitsAcc (natToDecAux fuel n) acc
        = some (acc * 10 ^ (natToDecAux fuel n).length + n) := by
  intro fuel
  induction fuel with
  | zero =>
    intro n acc h
    have : n = 0 := by omega
    subst this
    simp [natToDecAux, natDigitsAcc]
  | succ f ih =>
    intro n acc h
    by_cases h0 : n = 0
    · subst h0; simp [natToDecAux, natDigitsAcc]
    · have hrec : n / 10 ≤ f := by omega
      rw [natToDecAux, if_neg h0, natDigitsAcc_append, ih (n / 10) acc hrec]
      have hd : (Nat.digitChar (n % 10)).isDigit = true :=
        digitChar_isDigit (Nat.mod_lt _ (by omega))
      have hv : (Nat.digitChar (n % 10)).toNat - 48 = n % 10 :=
        digitChar_toNat (Nat.mod_lt _ (by omega))
      have hQ : ∀ Q : Nat, (Q + n / 10) * 10 + n % 10 = Q * 10 + n := by
        intro Q; omega
      simp only [Option.bind_some, natDigitsAcc, hd, if_true, hv,
        Option.some_bind, List.length_append, List.length_cons,
        List.length_nil, pow_succ, Nat.add_zero]
      rw [← mul_assoc]
      congr 1
      exact hQ _

theorem natToDecAux_ne_nil {fuel n : Nat} (h : n ≤ fuel) (h0 : n ≠ 0) :
    natToDecAux fuel n ≠ [] := by
  cases fuel with
  | zero => omega
  | succ f => simp [natToDecAux, h0]

theorem parseNatDigits_natToDec (n : Nat) :
    parseNatDigits (natToDecString n).data = some n := by
  by_cases h0 : n = 0
  · subst h0; decide
  · rw [natToDecString, if_neg h0]
    show parseNatDigits (natToDecAux n n) = some n
    match hne : natToDecAux n n with
    | [] => exact absurd hne (natToDecAux_ne_nil (le_refl n) h0)
    | c :: cs =>
      show natDigitsAcc (c :: cs) 0 = some n
      rw [← hne]
      rw [natToDecAux_eval n n 0 (le_refl n)]
      simp

/-- Two-complement range of Rust i64. -/
def inI64 (i : Int) : Prop := -(2 ^ 63) ≤ i ∧ i ≤ 2 ^ 63 - 1

instance (i : Int) : Decidable (inI64 i) := by
  unfold inI64; infer_instance

theorem natToDecAux_digits :
    ∀ fuel n, ∀ c ∈ natToDecAux fuel n, c.isDigit = true := by
  intro fuel
  induction fuel with
  | zero => intro n c hc; simp [natToDecAux] at hc
  | succ f ih =>
    intro n c hc
    by_cases h0 : n = 0
    · simp [natToDecAux, h0] at hc
    · rw [natToDecAux, if_neg h0] at hc
      rcases List.mem_append.mp hc with h | h
      · exact ih (n / 10) c h
      · have : c = Nat.digitChar (n % 10) := by simpa using h
        subst this
        exact digitChar_isDigit (Nat.mod_lt _ (by omega))

theorem natToDecString_digits (n : Nat) :
    ∀ c ∈ (natToDecString n).data, c.isDigit = true := by
  by_cases h0 : n = 0
  · subst h0; intro c hc; simp [natToDecString] at hc; simp [hc]
  · rw [natToDecString, if_neg h0]
    exact natToDecAux_digits n n

theorem isDigit_ne_plus {c : Char} (h : c.isDigit = true) : c ≠ '+' := by
  intro hc; subst hc; simp at h

theorem isDigit_ne_minus {c : Char} (h : c.isDigit = true) : c ≠ '-' := by
  intro hc; subst hc; simp at h

theorem natToDecString_ne_nil (n : Nat) : (natToDecString n).data ≠ [] := by
  by_cases h0 : n = 0
  · subst h0; decide
  · rw [natToDecString, if_neg h0]
    exact natToDecAux_ne_nil (le_refl n) h0

theorem parseI64_cons (s : String) (c : Char) (cs : List Char)
    (hs : s.data = c :: cs) :
    parseI64 s = (if c = '+' then (parseNatDigits cs).bind i64pos
      else if c = '-' then (parseNatDigits cs).bind i64neg
      else (parseNatDigits (c :: cs)).bind i64pos) := by
  unfold parseI64
  rw [hs]

theorem parseI64_natToDec {n : Nat} (h : n ≤ 2 ^ 63 - 1) :
    parseI64 (natToDecString n) = some (n : Int) := by
  match hne : (natToDecString n).data with
  | [] => exact absurd hne (natToDecString_ne_nil n)
  | c :: cs =>
    have hd : c.isDigit = true := by
      apply natToDecString_digits n
      rw [hne]; simp
    rw [parseI64_cons _ c cs hne,
      if_neg (isDigit_ne_plus hd), if_neg (isDigit_ne_minus hd),
      ← hne, parseNatDigits_natToDec n]
    simp only [Option.some_bind, i64pos, if_pos h]

theorem parseI64_intToDec {i : Int} (h : inI64 i) :
    parseI64 (intToDecString i) = some i := by
  obtain ⟨hlo, hhi⟩ := h
  by_cases hneg : i < 0
  · have hdata : (intToDecString i).data
        = '-' :: (natToDecString (-i).toNat).data := by
      rw [intToDecString, if_pos hneg, String.data_append]
      rfl
    rw [parseI64_cons _ _ _ hdata, if_neg (by decide), if_pos rfl,
      parseNatDigits_natToDec]
    have hrange : (-i).toNat ≤ 2 ^ 63 := by omega
    simp only [Option.some_bind, i64neg, if_pos hrange]
    congr 1
    omega
  · rw [intToDecString, if_neg hneg]
    have hn : ((i.toNat : Nat) : Int) = i := Int.toNat_of_nonneg (by omega)
    have hr : i.toNat ≤ 2 ^ 63 - 1 := by omega
    rw [parseI64_natToDec hr, hn]

theorem intToDecString_chars (i : Int) :
    ∀ c ∈ (intToDecString i).data, c.isDigit = true ∨ c = '-' := by
  intro c hc
  by_cases hneg : i < 0
  · rw [intToDecString, if_pos hneg, String.data_append] at hc
    rcases List.mem_append.mp hc with h | h
    · right; simpa using h
    · left; exact natToDecString_digits _ c h
  · rw [intToDecString, if_neg hneg] at hc
    left; exact natToDecString_digits _ c hc

theorem intToDecString_sepFree {sep : Char} (hd : sep.isDigit = false)
    (hm : sep ≠ '-') (i : Int) : sepFreeStr sep (intToDecString i) := by
  intro hmem
  rcases intToDecString_chars i sep hmem with h | h
  · rw [hd] at h; exact Bool.noConfusion h
  · exact hm h

/-! ## Fixed-size chunking (Rust slice::chunks, as used by the inserters) -/

/-- Fuel-driven chunking; fuel at least the list length suffices when the
chunk size is positive. -/
def chunksOfAux (k : Nat) : Nat → List α → List (List α)
  | 0, _ => []
  | _, [] => []
  | fuel + 1, a :: l => (a :: l).take k :: chunksOfAux k fuel ((a :: l).drop k)

/-- Rust slice::chunks: consecutive chunks of length k, the last one
possibly shorter. -/
def chunksOf (k : Nat) (l : List α) : List (List α) := chunksOfAux k l.length l

/-! ## SHA-256 (FIPS 180-4), the digest computed by the sha2 crate that
Member::new truncates into a synthetic id -/

/-- Truncation to a 32-bit word. -/
def w32 (n : Nat) : Nat := n % 4294967296

/-- Right rotation of a 32-bit word; the two shifted parts occupy disjoint
bit ranges, so their sum is their bitwise or. -/
def rotr32 (n x : Nat) : Nat := w32 ((x >>> n) + ((x % 2 ^ n) <<< (32 - n)))

/-- Bitwise complement on 32 bits. -/
def not32 (x : Nat) : Nat := 4294967295 - x

def sha256Ch (x y z : Nat) : Nat := (x &&& y) ^^^ (not32 x &&& z)

def sha256Maj (x y z : Nat) : Nat := (x &&& y) ^^^ (x &&& z) ^^^ (y &&& z)

def bigSigma0 (x : Nat) : Nat := rotr32 2 x ^^^ rotr32 13 x ^^^ rotr32 22 x

def bigSigma1 (x : Nat) : Nat := rotr32 6 x ^^^ rotr32 11 x ^^^ rotr32 25 x

def smallSigma0 (x : Nat) : Nat := rotr32 7 x ^^^ rotr32 18 x ^^^ (x >>> 3)

def smallSigma1 (x : Nat) : Nat := rotr32 17 x ^^^ rotr32 19 x ^^^ (x >>> 10)

/-- The 64 SHA-256 round constants of FIPS 180-4 section 4.2.2, written in
decimal. -/
def sha256K : List Nat :=
  [1116352408, 1899447441, 3049323471, 3921009573, 961987163,
   1508970993, 2453635748, 2870763221, 3624381080, 310598401,
   607225278, 1426881987, 1925078388, 2162078206, 2614888103,
   3248222580, 3835390401, 4022224774, 264347078, 604807628,
   770255983, 1249150122, 1555081692, 1996064986, 2554220882,
   2821834349, 2952996808, 3210313671, 3336571891, 3584528711,
   113926993, 338241895, 666307205, 773529912, 1294757372,
   1396182291, 1695183700, 1986661051, 2177026350, 2456956037,
   2730485921, 2820302411, 3259730800, 3345764771, 3516065817,
   3600352804, 4094571909, 275423344, 430227734, 506948616,
   659060556, 883997877, 958139571, 1322822218, 1537002063,
   1747873779, 1955562222, 2024104815, 2227730452, 2361852424,
   2428436474, 2756734187, 3204031479, 3329325298]

/-- The SHA-256 initial hash value of FIPS 180-4 section 5.3.3, written in
decimal. -/
def sha256H0 : List Nat :=
  [1779033703, 3144134277, 1013904242, 2773480762,
   1359893119, 2600822924, 528734635, 1541459225]

/-- Extend the message schedule; the accumulator holds the words produced
so far, most recent first. -/
def scheduleRev : Nat → List Nat → List Nat
  | 0, acc => acc
  | k + 1, acc =>
    let wt := w32 (smallSigma1 (acc.getD 1 0) + acc.getD 6 0
      + smallSigma0 (acc.getD 14 0) + acc.getD 15 0)
    scheduleRev k (wt :: acc)

/-- The 64-word message schedule of one 16-word block. -/
def sha256Schedule (block : List Nat) : List Nat :=
  (scheduleRev 48 block.reverse).reverse

/-- One SHA-256 compression round on the 8-word working state. -/
def sha256Round (st : List Nat) (kt wt : Nat) : List Nat :=
  match st with
  | [a, b, c, d, e, f, g, h] =>
    let t1 := h + bigSigma1 e + sha256Ch e f g + kt + wt
    let t2 := bigSigma0 a + sha256Maj a b c
    [w32 (t1 + t2), a, b, c, w32 (d + t1), e, f, g]
  | st => st

/-- Compress one 16-word block into the running 8-word hash value. -/
def sha256Compress (h : List Nat) (block : List Nat) : List Nat :=
  let sched := sha256Schedule block
  let st := (sha256K.zip sched).foldl (fun st p => sha256Round st p.1 p.2) h
  List.zipWith (fun x y => w32 (x + y)) h st

/-- Big-endian bytes of the low (count * 8) bits of a value. -/
def beBytesAux : Nat → Nat → List Nat
  | 0, _ => []
  | k + 1, v => beBytesAux k (v / 256) ++ [v % 256]

/-- Group a byte list into big-endian 32-bit words (length a multiple of 4
in every use below). -/
def wordsOfBytes : List Nat → List Nat
  | b0 :: b1 :: b2 :: b3 :: rest =>
    (((b0 * 256 + b1) * 256 + b2) * 256 + b3) :: wordsOfBytes rest
  | _ => []

/-- SHA-256 digest (32 bytes) of a byte-list message. -/
def sha256 (msg : List Nat) : List Nat :=
  let padZeros := (119 - msg.length % 64) % 64
  let padded := msg ++ 0x80 :: (List.replicate padZeros 0
    ++ beBytesAux 8 (msg.length * 8))
  let blocks := chunksOf 64 padded
  let hFinal := blocks.foldl (fun h b => sha256Compress h (wordsOfBytes b)) sha256H0
  (hFinal.map (beBytesAux 4)).flatten

/-! ## Entity model: Tag, MapsType, Member (src/tag.rs shape as re-exported
by osm_entities, src/utils.rs, src/member.rs) -/

/-- Rust f64, modelled opaquely: the pipeline only ever passes latitude and
longitude values through unchanged (bind on insert, typed read on fetch), so
a value is represented by the decimal text it was parsed from; the parsed
default 0.0 is F64.zero. No claim under verification depends on
floating-point arithmetic or on identification of distinct spellings. -/
structure F64 where
  repr : String
deriving DecidableEq, Repr

/-- The f64 literal 0.0 that readers.rs uses as the default lat/lon. -/
def F64.zero : F64 := ⟨"0"⟩

/-- Rust str::parse into f64, restricted to the simple decimal grammar that
this embedding needs: an optional sign, digits, an optional fractional
part. Inputs outside the grammar fail, as every malformed attribute does in
the Rust code; no claim depends on the exact accepted grammar. -/
def parseF64 (s : String) : Option F64 :=
  let core := match s.data with
    | '+' :: rest => rest
    | '-' :: rest => rest
    | rest => rest
  match splitnChars '.' 2 core with
  | [intPart] => if intPart ≠ [] ∧ ∀ c ∈ intPart, c.isDigit then some ⟨s⟩ else none
  | [intPart, fracPart] =>
    if intPart ≠ [] ∧ fracPart ≠ [] ∧ (∀ c ∈ intPart, c.isDigit)
        ∧ (∀ c ∈ fracPart, c.isDigit) then some ⟨s⟩ else none
  | _ => none

/-- Key/value tag (src/tag.rs, re-exported through osm_entities). -/
structure Tag where
  key : String
  value : String
deriving DecidableEq, Repr

/-- Discriminant of a relation member's target (src/utils.rs MapsType). -/
inductive MapsType
  | node
  | way
  | relation
  | other (s : String)
deriving DecidableEq, Repr

/-- MapsType::as_str from src/utils.rs. -/
def MapsType.as_str : MapsType → String
  | .node => "node"
  | .way => "way"
  | .relation => "relation"
  | .other s => s

/-- Modelled from the spec: the FromStr implementation for MapsType is not
under src/ (only its two callers are: attribute parsing in
src/open_street_map/readers.rs, which then filters out Other("Unknown"),
and the kind-token dispatch in Relation::from_row). Per the spec, the three
canonical kind strings map to their kinds and anything else is the
unrecognized intermediate state that both callers subsequently skip. -/
def MapsType.fromStr (s : String) : MapsType :=
  if s = "node" then .node
  else if s = "way" then .way
  else if s = "relation" then .relation
  else .other "Unknown"

/-- UTF-8 encoding of one scalar value (the byte view sha2 hashes). -/
def charUtf8 (c : Char) : List Nat :=
  let n := c.toNat
  if n < 0x80 then [n]
  else if n < 0x800 then [0xc0 + n / 64, 0x80 + n % 64]
  else if n < 0x10000 then
    [0xe0 + n / 4096, 0x80 + n / 64 % 64, 0x80 + n % 64]
  else
    [0xf0 + n / 262144, 0x80 + n / 4096 % 64, 0x80 + n / 64 % 64, 0x80 + n % 64]

/-- UTF-8 bytes of a string (str::as_bytes). -/
def utf8Bytes (s : String) : List Nat := (s.data.map charUtf8).flatten

/-- Rust i64::to_be_bytes: 8 big-endian bytes of the two-complement
representation. -/
def i64BeBytes (i : Int) : List Nat := beBytesAux 8 (i.emod (2 ^ 64)).toNat

/-- Rust i64::from_be_bytes on an 8-byte big-endian list, two-complement. -/
def i64FromBeBytes (bs : List Nat) : Int :=
  let v : Nat := bs.foldl (fun a b => a * 256 + b) 0
  if v < 2 ^ 63 then (v : Int) else (v : Int) - 2 ^ 64

/-- Relation member (src/member.rs). -/
structure Member where
  id : Int
  ref_id : Int
  maps_type : MapsType
  role : String
deriving DecidableEq, Repr

/-- The synthetic member id computed inside Member::new: SHA-256 over
ref_id.to_be_bytes() followed by the UTF-8 bytes of maps_type.as_str(),
truncated to the first 8 bytes read as a big-endian i64. The relation id
and the role are not part of the hash input. -/
def memberHashId (ref_id : Int) (maps_type : MapsType) : Int :=
  i64FromBeBytes ((sha256 (i64BeBytes ref_id ++ utf8Bytes maps_type.as_str)).take 8)

attribute [irreducible] memberHashId

/-- Member::new from src/member.rs: three parameters (ref_id, maps_type,
role), the synthetic id depending on ref_id and maps_type only. (The call
site in readers.rs spells a four-argument call passing the enclosing
relation id first; no four-parameter constructor exists under src/, and the
definition in src/member.rs is the one the claims cite.) -/
def Member.new (ref_id : Int) (maps_type : MapsType) (role : String) : Member :=
  { id := memberHashId ref_id maps_type
    ref_id := ref_id
    maps_type := maps_type
    role := role }

/-- Geographic node (src/osm_entities/node.rs). -/
structure Node where
  id : Int
  lat : F64
  lon : F64
  version : Int
  timestamp : String
  changeset : Int
  uid : Int
  user : String
  tags : List Tag
deriving DecidableEq, Repr

/-- Way with ordered node references. The Way variant used by readers.rs,
inserters.rs and fetchers.rs (fields id, version, timestamp, changeset,
uid, user, node_refs, tags) lives in the osm_entities module whose way
source file is not under src/; the fields are exactly those referenced by
its callers and by the way table schema. -/
structure Way where
  id : Int
  version : Int
  timestamp : String
  changeset : Int
  uid : Int
  user : String
  node_refs : List Int
  tags : List Tag
deriving DecidableEq, Repr

/-- Relation with ordered members (src/relation.rs). -/
structure Relation where
  id : Int
  version : Int
  timestamp : String
  changeset : Int
  uid : Int
  user : String
  members : List Member
  tags : List Tag
deriving DecidableEq, Repr

/-- Relation::extract_members from src/relation.rs: members of each
relation paired with the enclosing relation id, in order. -/
def Relation.extract_members (relations : List Relation) : List (Int × Member) :=
  (relations.map (fun r => r.members.map (fun m => (r.id, m)))).flatten

/-- Way::extract_way_node_refs as called by inserters.rs; the defining
source file (osm_entities way module) is not under src/. Modelled from the
spec: flatten every way's ordered node references into (way_id, ref_id)
pairs, preserving way order and per-way reference order. -/
def Way.extract_way_node_refs (ways : List Way) : List (Int × Int) :=
  (ways.map (fun w => w.node_refs.map (fun r => (w.id, r)))).flatten

/-! ## Streaming readers (src/open_street_map/readers.rs) -/

/-- One quick-xml event, with names and attribute key/value pairs already
UTF-8-decoded. Start is an opening tag with attributes, empty a
self-closing tag; every other event kind is ignored by all reader branches
and collapsed into otherEvent. -/
inductive Event
  | start (name : String) (attrs : List (String × String))
  | empty (name : String) (attrs : List (String × String))
  | otherEvent
deriving DecidableEq, Repr

/-- Parse-abort conditions of the readers (the boxed errors the Rust
functions return through the question-mark operator). -/
inductive ParseError
  | intError
  | floatError
deriving DecidableEq, Repr

/-- The all-default Node literal that both node branches of
read_nodes_from_file start from. -/
def defaultNode : Node :=
  { id := 0, lat := F64.zero, lon := F64.zero, version := 0, timestamp := ""
    changeset := 0, uid := 0, user := "", tags := [] }

/-- One attribute applied to the node under construction: the guard chain
of readers.rs lines 46-58; unknown attribute keys are ignored, malformed
expected values abort. -/
def nodeApplyAttr (n : Node) (kv : String × String) : Except ParseError Node :=
  if kv.1 = "id" then
    match parseI64 kv.2 with
    | some v => .ok { n with id := v }
    | none => .error .intError
  else if kv.1 = "lat" then
    match parseF64 kv.2 with
    | some v => .ok { n with lat := v }
    | none => .error .floatError
  else if kv.1 = "lon" then
    match parseF64 kv.2 with
    | some v => .ok { n with lon := v }
    | none => .error .floatError
  else if kv.1 = "version" then
    match parseI32 kv.2 with
    | some v => .ok { n with version := v }
    | none => .error .intError
  else if kv.1 = "timestamp" then .ok { n with timestamp := kv.2 }
  else if kv.1 = "changeset" then
    match parseI64 kv.2 with
    | some v => .ok { n with changeset := v }
    | none => .error .intError
  else if kv.1 = "uid" then
    match parseI64 kv.2 with
    | some v => .ok { n with uid := v }
    | none => .error .intError
  else if kv.1 = "user" then .ok { n with user := kv.2 }
  else .ok n

/-- All attributes of a node element, in document order. -/
def nodeApplyAttrs (attrs : List (String × String)) : Except ParseError Node :=
  attrs.foldlM nodeApplyAttr defaultNode

/-- A tag element's key/value attributes folded into a Tag (defaults are
empty strings; attribute values are plain strings, so this never fails). -/
def tagFromAttrs (attrs : List (String × String)) : Tag :=
  attrs.foldl
    (fun t kv =>
      if kv.1 = "k" then { t with key := kv.2 }
      else if kv.1 = "v" then { t with value := kv.2 }
      else t)
    { key := "", value := "" }

/-- Vec::last_mut update: modify the most recently pushed element, when one
exists. -/
def modifyLast (f : α → α) : List α → List α
  | [] => []
  | [x] => [f x]
  | x :: y :: xs => x :: modifyLast f (y :: xs)

/-- Event loop of read_nodes_from_file: Start node and Empty node both push
a freshly parsed node; Empty tag appends to the tags of the most recently
pushed node whichever element actually encloses it; everything else is
ignored. -/
def readNodesLoop : List Event → List Node → Except ParseError (List Node)
  | [], acc => .ok acc
  | .start name attrs :: rest, acc =>
    if name = "node" then do
      let n ← nodeApplyAttrs attrs
      readNodesLoop rest (acc ++ [n])
    else readNodesLoop rest acc
  | .empty name attrs :: rest, acc =>
    if name = "node" then do
      let n ← nodeApplyAttrs attrs
      readNodesLoop rest (acc ++ [n])
    else if name = "tag" then
      readNodesLoop rest
        (modifyLast (fun nd => { nd with tags := nd.tags ++ [tagFromAttrs attrs] }) acc)
    else readNodesLoop rest acc
  | .otherEvent :: rest, acc => readNodesLoop rest acc

/-- read_nodes_from_file over an event stream. -/
def read_nodes_from_file (events : List Event) : Except ParseError (List Node) :=
  readNodesLoop events []

/-- The all-default Way literal of read_ways_from_file. -/
def defaultWay : Way :=
  { id := 0, version := 0, timestamp := "", changeset := 0, uid := 0
    user := "", node_refs := [], tags := [] }

/-- One attribute applied to the way under construction (readers.rs lines
154-163). -/
def wayApplyAttr (w : Way) (kv : String × String) : Except ParseError Way :=
  if kv.1 = "id" then
    match parseI64 kv.2 with
    | some v => .ok { w with id := v }
    | none => .error .intError
  else if kv.1 = "version" then
    match parseI32 kv.2 with
    | some v => .ok { w with version := v }
    | none => .error .intError
  else if kv.1 = "timestamp" then .ok { w with timestamp := kv.2 }
  else if kv.1 = "changeset" then
    match parseI64 kv.2 with
    | some v => .ok { w with changeset := v }
    | none => .error .intError
  else if kv.1 = "uid" then
    match parseI64 kv.2 with
    | some v => .ok { w with uid := v }
    | none => .error .intError
  else if kv.1 = "user" then .ok { w with user := kv.2 }
  else .ok w

/-- All attributes of a way element. -/
def wayApplyAttrs (attrs : List (String × String)) : Except ParseError Way :=
  attrs.foldlM wayApplyAttr defaultWay

/-- The nd-element attribute loop (readers.rs lines 172-178): node_ref
starts at the sentinel -1 and each ref attribute must parse as an i64; a
malformed ref aborts through the question-mark operator. -/
def ndRefFromAttrs (attrs : List (String × String)) : Except ParseError Int :=
  attrs.foldlM
    (fun acc kv =>
      if kv.1 = "ref" then
        match parseI64 kv.2 with
        | some v => .ok v
        | none => .error .intError
      else .ok acc)
    (-1)

/-- Event loop of read_ways_from_file: only Start way opens a way (a
self-closing way element is ignored); Empty nd parses its ref attribute
when a way exists, appending the value unless it is the sentinel -1; Empty
tag appends to the most recently pushed way. -/
def readWaysLoop : List Event → List Way → Except ParseError (List Way)
  | [], acc => .ok acc
  | .start name attrs :: rest, acc =>
    if name = "way" then do
      let w ← wayApplyAttrs attrs
      readWaysLoop rest (acc ++ [w])
    else readWaysLoop rest acc
  | .empty name attrs :: rest, acc =>
    if name = "nd" then
      match acc with
      | [] => readWaysLoop rest acc
      | _ :: _ => do
        let r ← ndRefFromAttrs attrs
        readWaysLoop rest
          (if r ≠ -1 then
            modifyLast (fun w => { w with node_refs := w.node_refs ++ [r] }) acc
          else acc)
    else if name = "tag" then
      readWaysLoop rest
        (modifyLast (fun w => { w with tags := w.tags ++ [tagFromAttrs attrs] }) acc)
    else readWaysLoop rest acc
  | .otherEvent :: rest, acc => readWaysLoop rest acc

/-- read_ways_from_file over an event stream. -/
def read_ways_from_file (events : List Event) : Except ParseError (List Way) :=
  readWaysLoop events []

/-- The all-default Relation literal of read_relations_from_file. -/
def defaultRelation : Relation :=
  { id := 0, version := 0, timestamp := "", changeset := 0, uid := 0
    user := "", members := [], tags := [] }

/-- One attribute applied to the relation under construction. -/
def relationApplyAttr (r : Relation) (kv : String × String) :
    Except ParseError Relation :=
  if kv.1 = "id" then
    match parseI64 kv.2 with
    | some v => .ok { r with id := v }
    | none => .error .intError
  else if kv.1 = "version" then
    match parseI32 kv.2 with
    | some v => .ok { r with version := v }
    | none => .error .intError
  else if kv.1 = "timestamp" then .ok { r with timestamp := kv.2 }
  else if kv.1 = "changeset" then
    match parseI64 kv.2 with
    | some v => .ok { r with changeset := v }
    | none => .error .intError
  else if kv.1 = "uid" then
    match parseI64 kv.2 with
    | some v => .ok { r with uid := v }
    | none => .error .intError
  else if kv.1 = "user" then .ok { r with user := kv.2 }
  else .ok r

/-- All attributes of a relation element. -/
def relationApplyAttrs (attrs : List (String × String)) :
    Except ParseError Relation :=
  attrs.foldlM relationApplyAttr defaultRelation

/-- The member-element attribute loop (readers.rs lines 266-277): state
(ref_id, maps_type, role) starting at (0, Other Unknown, empty); a
malformed ref aborts; the type attribute goes through the MapsType parse
(see MapsType.fromStr). -/
def memberFromAttrs (attrs : List (String × String)) :
    Except ParseError (Int × MapsType × String) :=
  attrs.foldlM
    (fun st kv =>
      if kv.1 = "type" then .ok (st.1, MapsType.fromStr kv.2, st.2.2)
      else if kv.1 = "ref" then
        match parseI64 kv.2 with
        | some v => .ok (v, st.2.1, st.2.2)
        | none => .error .intError
      else if kv.1 = "role" then .ok (st.1, st.2.1, kv.2)
      else .ok st)
    (0, MapsType.other "Unknown", "")

/-- Event loop of read_relations_from_file: Start relation pushes; Empty
member builds a member when a relation exists, skipping it entirely when
its kind stayed Other Unknown, and otherwise appending the Member::new
construction to the most recent relation; Empty tag appends to the most
recent relation. -/
def readRelationsLoop : List Event → List Relation →
    Except ParseError (List Relation)
  | [], acc => .ok acc
  | .start name attrs :: rest, acc =>
    if name = "relation" then do
      let r ← relationApplyAttrs attrs
      readRelationsLoop rest (acc ++ [r])
    else readRelationsLoop rest acc
  | .empty name attrs :: rest, acc =>
    if name = "member" then
      match acc with
      | [] => readRelationsLoop rest acc
      | _ :: _ => do
        let st ← memberFromAttrs attrs
        readRelationsLoop rest
          (if st.2.1 ≠ MapsType.other "Unknown" then
            modifyLast
              (fun r => { r with
                members := r.members ++ [Member.new st.1 st.2.1 st.2.2] }) acc
          else acc)
    else if name = "tag" then
      readRelationsLoop rest
        (modifyLast (fun r => { r with tags := r.tags ++ [tagFromAttrs attrs] }) acc)
    else readRelationsLoop rest acc
  | .otherEvent :: rest, acc => readRelationsLoop rest acc

/-- read_relations_from_file over an event stream. -/
def read_relations_from_file (events : List Event) :
    Except ParseError (List Relation) :=
  readRelationsLoop events []

/-! ## Store model: tables of src/database/tables.rs with INSERT OR IGNORE
semantics, rows kept in insertion (rowid) order -/

/-- A row of the node table. -/
structure NodeRow where
  id : Int
  lat : F64
  lon : F64
  version : Int
  timestamp : String
  changeset : Int
  uid : Int
  user : String
deriving DecidableEq, Repr

/-- A row of the way table. -/
structure WayRow where
  id : Int
  version : Int
  timestamp : String
  changeset : Int
  uid : Int
  user : String
deriving DecidableEq, Repr

/-- A row of the relation table. -/
structure RelationRow where
  id : Int
  version : Int
  timestamp : String
  changeset : Int
  uid : Int
  user : String
deriving DecidableEq, Repr

/-- A row of one of the three tag tables (node_tags, way_tags,
relation_tags), keyed by (parent id, key). -/
structure TagRow where
  parent_id : Int
  key : String
  value : String
deriving DecidableEq, Repr

/-- A row of the way_nodes table, keyed by the (way_id, ref_id) pair. -/
structure WayNodeRow where
  way_id : Int
  ref_id : Int
deriving DecidableEq, Repr

/-- A row of the member table. -/
structure MemberRow where
  id : Int
  relation_id : Int
  node_id : Option Int
  way_id : Option Int
  relation_ref_id : Option Int
  member_type : String
  role : String
deriving DecidableEq, Repr

/-- The relational store: one ordered row list per table. -/
structure Store where
  node : List NodeRow
  way : List WayRow
  relation : List RelationRow
  node_tags : List TagRow
  way_tags : List TagRow
  relation_tags : List TagRow
  way_nodes : List WayNodeRow
  member : List MemberRow
deriving DecidableEq, Repr

/-- The store right after create_tables. -/
def emptyStore : Store := ⟨[], [], [], [], [], [], [], []⟩

/-- Key present in a table under a key projection. -/
def hasKey (key : ρ → κ) (table : List ρ) (k : κ) : Prop :=
  ∃ r ∈ table, key r = k

instance (key : ρ → κ) [DecidableEq κ] (table : List ρ) (k : κ) :
    Decidable (hasKey key table k) := by
  unfold hasKey; infer_instance

/-- INSERT OR IGNORE of one row into a table with the given primary key
projection: appended unless the key is already present. -/
def insertIgnore (key : ρ → κ) [DecidableEq κ] (table : List ρ) (row : ρ) :
    List ρ :=
  if hasKey key table (key row) then table else table ++ [row]

/-- The member_type_check CHECK constraint of the member table
(src/database/tables.rs lines 64-68). -/
def memberRowCheck (r : MemberRow) : Prop :=
  (r.member_type = "node" ∧ r.node_id ≠ none ∧ r.way_id = none
    ∧ r.relation_ref_id = none)
  ∨ (r.member_type = "way" ∧ r.way_id ≠ none ∧ r.node_id = none
    ∧ r.relation_ref_id = none)
  ∨ (r.member_type = "relation" ∧ r.relation_ref_id ≠ none ∧ r.node_id = none
    ∧ r.way_id = none)

instance (r : MemberRow) : Decidable (memberRowCheck r) := by
  unfold memberRowCheck; infer_instance

/-- INSERT OR IGNORE into the member table: a row violating the CHECK
constraint or duplicating the primary key id is silently dropped. -/
def insertMemberIgnore (table : List MemberRow) (row : MemberRow) :
    List MemberRow :=
  if memberRowCheck row then insertIgnore MemberRow.id table row else table

/-- Key projection of the tag tables. -/
def tagRowKey (r : TagRow) : Int × String := (r.parent_id, r.key)

/-- Key projection of the way_nodes table. -/
def wayNodeKey (r : WayNodeRow) : Int × Int := (r.way_id, r.ref_id)

/-! ## Batched bulk inserters (src/database/inserters.rs) -/

/-- The node row bound by insert_node_data for one node (8 fields). -/
def nodeRowOf (n : Node) : NodeRow :=
  { id := n.id, lat := n.lat, lon := n.lon, version := n.version
    timestamp := n.timestamp, changeset := n.changeset, uid := n.uid
    user := n.user }

/-- insert_node_data: node rows chunk by chunk, then per node chunk the
flattened tag rows chunk by chunk, every statement INSERT OR IGNORE. -/
def insert_node_data (S : Store) (nodes : List Node) : Store :=
  let sqliteMaxVariableNumber := 999
  let node_field_count := 8
  let tag_field_count := 3
  let node_batch_size := (sqliteMaxVariableNumber / node_field_count).min 4000
  let tag_batch_size := (sqliteMaxVariableNumber / tag_field_count).min 4000
  let S₁ := (chunksOf node_batch_size nodes).foldl
    (fun St chunk =>
      { St with node := (chunk.foldl
          (fun t n => insertIgnore NodeRow.id t (nodeRowOf n)) St.node) })
    S
  (chunksOf node_batch_size nodes).foldl
    (fun St chunk =>
      let tags := (chunk.map (fun n =>
        n.tags.map (fun t => TagRow.mk n.id t.key t.value))).flatten
      (chunksOf tag_batch_size tags).foldl
        (fun St tagChunk =>
          { St with node_tags := (tagChunk.foldl
              (insertIgnore tagRowKey) St.node_tags) })
        St)
    S₁

/-- The way row bound by insert_way_data for one way (6 fields). -/
def wayRowOf (w : Way) : WayRow :=
  { id := w.id, version := w.version, timestamp := w.timestamp
    changeset := w.changeset, uid := w.uid, user := w.user }

/-- insert_way_data: way rows, then per way chunk the extracted
(way_id, ref_id) pairs, then per way chunk the flattened tag rows. -/
def insert_way_data (S : Store) (ways : List Way) : Store :=
  let sqliteMaxVariableNumber := 999
  let way_field_count := 6
  let way_node_field_count := 2
  let tag_field_count := 3
  let way_batch_size := (sqliteMaxVariableNumber / way_field_count).min 4000
  let way_node_batch_size :=
    (sqliteMaxVariableNumber / way_node_field_count).min 4000
  let tag_batch_size := (sqliteMaxVariableNumber / tag_field_count).min 4000
  let S₁ := (chunksOf way_batch_size ways).foldl
    (fun St chunk =>
      { St with way := (chunk.foldl
          (fun t w => insertIgnore WayRow.id t (wayRowOf w)) St.way) })
    S
  let S₂ := (chunksOf way_batch_size ways).foldl
    (fun St chunk =>
      let way_nodes := Way.extract_way_node_refs chunk
      (chunksOf way_node_batch_size way_nodes).foldl
        (fun St wnChunk =>
          { St with way_nodes := (wnChunk.foldl
              (fun t p => insertIgnore wayNodeKey t (WayNodeRow.mk p.1 p.2))
              St.way_nodes) })
        St)
    S₁
  (chunksOf way_batch_size ways).foldl
    (fun St chunk =>
      let tags := (chunk.map (fun w =>
        w.tags.map (fun t => TagRow.mk w.id t.key t.value))).flatten
      (chunksOf tag_batch_size tags).foldl
        (fun St tagChunk =>
          { St with way_tags := (tagChunk.foldl
              (insertIgnore tagRowKey) St.way_tags) })
        St)
    S₂

/-- The relation row bound by insert_relation_data (6 fields). -/
def relationRowOf (r : Relation) : RelationRow :=
  { id := r.id, version := r.version, timestamp := r.timestamp
    changeset := r.changeset, uid := r.uid, user := r.user }

/-- The member row bound by insert_relation_data for one (relation id,
member) pair: exactly one of the three foreign-key slots is non-null,
selected by maps_type (inserters.rs lines 197-213). -/
def memberBindRow (relation_id : Int) (m : Member) : MemberRow :=
  { id := m.id
    relation_id := relation_id
    node_id := match m.maps_type with | .node => some m.ref_id | _ => none
    way_id := match m.maps_type with | .way => some m.ref_id | _ => none
    relation_ref_id :=
      match m.maps_type with | .relation => some m.ref_id | _ => none
    member_type := m.maps_type.as_str
    role := m.role }

/-- insert_relation_data: relation rows, then per relation chunk the
extracted members, then per relation chunk the flattened tag rows. -/
def insert_relation_data (S : Store) (relations : List Relation) : Store :=
  let sqliteMaxVariableNumber := 999
  let relation_field_count := 6
  let relation_member_field_count := 4
  let tag_field_count := 3
  let relation_batch_size :=
    (sqliteMaxVariableNumber / relation_field_count).min 4000
  let relation_member_batch_size :=
    (sqliteMaxVariableNumber / relation_member_field_count).min 4000
  let tag_batch_size := (sqliteMaxVariableNumber / tag_field_count).min 4000
  let S₁ := (chunksOf relation_batch_size relations).foldl
    (fun St chunk =>
      { St with relation := (chunk.foldl
          (fun t r => insertIgnore RelationRow.id t (relationRowOf r))
          St.relation) })
    S
  let S₂ := (chunksOf relation_batch_size relations).foldl
    (fun St chunk =>
      let relation_members := Relation.extract_members chunk
      (chunksOf relation_member_batch_size relation_members).foldl
        (fun St mChunk =>
          { St with member := (mChunk.foldl
              (fun t p => insertMemberIgnore t (memberBindRow p.1 p.2))
              St.member) })
        St)
    S₁
  (chunksOf relation_batch_size relations).foldl
    (fun St chunk =>
      let tags := (chunk.map (fun r =>
        r.tags.map (fun t => TagRow.mk r.id t.key t.value))).flatten
      (chunksOf tag_batch_size tags).foldl
        (fun St tagChunk =>
          { St with relation_tags := (tagChunk.foldl
              (insertIgnore tagRowKey) St.relation_tags) })
        St)
    S₂

/-! ## Denormalizing fetchers (src/database/fetchers.rs) and the FromRow
decoders -/

/-- GROUP_CONCAT(cell, comma-separator) over the child rows of one parent,
in table order: NULL (none) when the parent has no child rows. -/
def groupConcat (cells : List String) : Option String :=
  match cells with
  | [] => none
  | _ => some (joinSep "," cells)

/-- The key-colon-value cell built by the tag subqueries. -/
def tagCell (r : TagRow) : String := r.key ++ ":" ++ r.value

/-- IFNULL(x, empty) over an integer column rendered into text. -/
def ifnullInt : Option Int → String
  | none => ""
  | some v => intToDecString v

/-- The six-field member cell built by the member subquery of
fetch_all_relations_and_tags. -/
def memberCell (m : MemberRow) : String :=
  intToDecString m.id ++ ":" ++ ifnullInt m.node_id ++ ":" ++ ifnullInt m.way_id
    ++ ":" ++ ifnullInt m.relation_ref_id ++ ":" ++ m.member_type ++ ":" ++ m.role

/-- Tag-cell decoder of Node::from_row (src/osm_entities/node.rs lines
90-101): splitn 2 on the colon, defaulting missing parts to empty and
dropping cells with an empty key or value. -/
def decodeTagCellNode (cell : String) : Option Tag :=
  match splitnStr ':' 2 cell with
  | [k, v] => if k = "" ∨ v = "" then none else some ⟨k, v⟩
  | _ => none

/-- Tags column decoder of Node::from_row: a NULL column is an empty tag
list, otherwise split on commas and keep the cells that decode. -/
def decodeTagsNode (cellsOpt : Option String) : List Tag :=
  match cellsOpt with
  | some s => (splitStr ',' s).filterMap decodeTagCellNode
  | none => []

/-- Tag-cell decoder of Relation::from_row (src/relation.rs lines 85-92):
splitn 2 on the colon, requiring both iterator steps to produce a part. -/
def decodeTagCellRel (cell : String) : Option Tag :=
  match splitnStr ':' 2 cell with
  | [k, v] => some ⟨k, v⟩
  | _ => none

/-- Tags column decoder of Relation::from_row. -/
def decodeTagsRel (cellsOpt : Option String) : List Tag :=
  match cellsOpt with
  | some s => (splitStr ',' s).filterMap decodeTagCellRel
  | none => []

/-- Member-cell decoder of Relation::from_row (src/relation.rs lines
99-118): splitn 6 on the colon giving the fixed positions id, node_id,
way_id, relation_ref_id, kind, role; the id must parse, the three
foreign-key slots parse optionally, and the slot selected by the kind
must be present, else the cell is skipped. -/
def decodeMemberCell (cell : String) : Option Member :=
  match splitnStr ':' 6 cell with
  | [ids, ns, ws, rs, ks, role] =>
    match parseI64 ids with
    | none => none
    | some id =>
      let node_id := parseI64 ns
      let way_id := parseI64 ws
      let relation_ref_id := parseI64 rs
      let maps_type := MapsType.fromStr ks
      match (match maps_type with
        | .node => node_id
        | .way => way_id
        | .relation => relation_ref_id
        | .other _ => none) with
      | none => none
      | some ref_id => some ⟨id, ref_id, maps_type, role⟩
  | _ => none

/-- Members column decoder of Relation::from_row. -/
def decodeMembers (cellsOpt : Option String) : List Member :=
  match cellsOpt with
  | some s => (splitStr ',' s).filterMap decodeMemberCell
  | none => []

/-- Modelled from the spec: node_refs column decoder of the Way FromRow
impl, whose source file (the osm_entities way module) is not under src/.
Per the spec's decode algorithm it splits the aggregate on the outer comma
delimiter and converts each cell to an integer, an empty or absent
aggregate decoding to the empty reference list; cell handling mirrors the
sibling filter_map decoders of relation.rs. -/
def decodeWayRefs (cellsOpt : Option String) : List Int :=
  match cellsOpt with
  | some s => (splitStr ',' s).filterMap parseI64
  | none => []

/-- fetch_all_nodes_and_tags: one output row per node row, the tag cells
aggregated by GROUP_CONCAT in table order and decoded by Node::from_row.
The model store always holds well-typed scalar columns, so the per-row
Result of from_row cannot fail and the fetch returns the node list
directly. -/
def fetch_all_nodes_and_tags (S : Store) : List Node :=
  S.node.map (fun r =>
    { id := r.id, lat := r.lat, lon := r.lon, version := r.version
      timestamp := r.timestamp, changeset := r.changeset, uid := r.uid
      user := r.user
      tags := decodeTagsNode (groupConcat
        ((S.node_tags.filter (fun t => t.parent_id == r.id)).map tagCell)) })

/-- fetch_all_ways_and_tags: way rows joined with the aggregated node_refs
and tags subqueries, decoded by the Way FromRow impl. -/
def fetch_all_ways_and_tags (S : Store) : List Way :=
  S.way.map (fun r =>
    { id := r.id, version := r.version, timestamp := r.timestamp
      changeset := r.changeset, uid := r.uid, user := r.user
      node_refs := decodeWayRefs (groupConcat
        ((S.way_nodes.filter (fun wn => wn.way_id == r.id)).map
          (fun wn => intToDecString wn.ref_id)))
      tags := decodeTagsRel (groupConcat
        ((S.way_tags.filter (fun t => t.parent_id == r.id)).map tagCell)) })

/-- fetch_all_relations_and_tags: relation rows joined with the aggregated
tags and members subqueries, decoded by Relation::from_row. -/
def fetch_all_relations_and_tags (S : Store) : List Relation :=
  S.relation.map (fun r =>
    { id := r.id, version := r.version, timestamp := r.timestamp
      changeset := r.changeset, uid := r.uid, user := r.user
      members := decodeMembers (groupConcat
        ((S.member.filter (fun m => m.relation_id == r.id)).map memberCell))
      tags := decodeTagsRel (groupConcat
        ((S.relation_tags.filter (fun t => t.parent_id == r.id)).map tagCell)) })

/-! ## Bound-parameter accounting of the generated INSERT statements -/

/-- Parameters bound by each statement insert_node_data generates, in
order: 8 per node row, 3 per node_tags row, chunked exactly as the code
chunks. -/
def insert_node_data_param_counts (nodes : List Node) : List Nat :=
  let node_batch_size := (999 / 8).min 4000
  let tag_batch_size := (999 / 3).min 4000
  (chunksOf node_batch_size nodes).map (fun c => 8 * c.length)
    ++ ((chunksOf node_batch_size nodes).map (fun chunk =>
      let tags := (chunk.map (fun n =>
        n.tags.map (fun t => TagRow.mk n.id t.key t.value))).flatten
      (chunksOf tag_batch_size tags).map (fun tc => 3 * tc.length))).flatten

/-- Parameters bound by each statement insert_way_data generates: 6 per
way row, 2 per way_nodes row, 3 per way_tags row. -/
def insert_way_data_param_counts (ways : List Way) : List Nat :=
  let way_batch_size := (999 / 6).min 4000
  let way_node_batch_size := (999 / 2).min 4000
  let tag_batch_size := (999 / 3).min 4000
  (chunksOf way_batch_size ways).map (fun c => 6 * c.length)
    ++ ((chunksOf way_batch_size ways).map (fun chunk =>
      (chunksOf way_node_batch_size (Way.extract_way_node_refs chunk)).map
        (fun wc => 2 * wc.length))).flatten
    ++ ((chunksOf way_batch_size ways).map (fun chunk =>
      let tags := (chunk.map (fun w =>
        w.tags.map (fun t => TagRow.mk w.id t.key t.value))).flatten
      (chunksOf tag_batch_size tags).map (fun tc => 3 * tc.length))).flatten

/-- Parameters bound by each statement insert_relation_data generates: 6
per relation row; 7 per member row (id, relation_id, node_id, way_id,
relation_ref_id, member_type, role are all bound) while the chunk size is
computed from relation_member_field_count = 4; 3 per relation_tags row. -/
def insert_relation_data_param_counts (relations : List Relation) : List Nat :=
  let relation_batch_size := (999 / 6).min 4000
  let relation_member_batch_size := (999 / 4).min 4000
  let tag_batch_size := (999 / 3).min 4000
  (chunksOf relation_batch_size relations).map (fun c => 6 * c.length)
    ++ ((chunksOf relation_batch_size relations).map (fun chunk =>
      (chunksOf relation_member_batch_size (Relation.extract_members chunk)).map
        (fun mc => 7 * mc.length))).flatten
    ++ ((chunksOf relation_batch_size relations).map (fun chunk =>
      let tags := (chunk.map (fun r =>
        r.tags.map (fun t => TagRow.mk r.id t.key t.value))).flatten
      (chunksOf tag_batch_size tags).map (fun tc => 3 * tc.length))).flatten

/-! ## Chunking and insert-fold lemmas -/

theorem chunksOfAux_flatten (k : Nat) (hk : 0 < k) :
    ∀ fuel (l : List α), l.length ≤ fuel → (chunksOfAux k fuel l).flatten = l := by
  intro fuel
  induction fuel with
  | zero =>
    intro l h
    have : l = [] := List.eq_nil_of_length_eq_zero (by omega)
    subst this; rfl
  | succ f ih =>
    intro l h
    cases l with
    | nil => rfl
    | cons a t =>
      have hlen : ((a :: t).drop k).length ≤ f := by
        have h2 : t.length + 1 ≤ f + 1 := by simpa using h
        have h3 : 1 ≤ k := hk
        rw [List.length_drop, List.length_cons]
        omega
      rw [chunksOfAux, List.flatten_cons, ih ((a :: t).drop k) hlen,
        List.take_append_drop]

theorem chunksOf_flatten (k : Nat) (hk : 0 < k) (l : List α) :
    (chunksOf k l).flatten = l :=
  chunksOfAux_flatten k hk l.length l (le_refl _)

theorem flatten_map_flatten (f : α → List β) :
    ∀ C : List (List α),
      ((C.map (fun c => (c.map f).flatten)).flatten) = ((C.flatten).map f).flatten := by
  intro C
  induction C with
  | nil => rfl
  | cons c C ih => simp [ih]

section InsertFold

variable {ρ κ : Type} (key : ρ → κ) [DecidableEq κ]

theorem hasKey_insertIgnore_mono {t : List ρ} {k : κ} (row : ρ)
    (h : hasKey key t k) : hasKey key (insertIgnore key t row) k := by
  unfold insertIgnore
  split
  · exact h
  · obtain ⟨r, hr, hk⟩ := h
    exact ⟨r, by simp [hr], hk⟩

theorem hasKey_insertIgnore_self (t : List ρ) (row : ρ) :
    hasKey key (insertIgnore key t row) (key row) := by
  unfold insertIgnore
  split
  · assumption
  · exact ⟨row, by simp, rfl⟩

theorem hasKey_foldl_mono (rows : List ρ) {t : List ρ} {k : κ}
    (h : hasKey key t k) :
    hasKey key (rows.foldl (insertIgnore key) t) k := by
  induction rows generalizing t with
  | nil => exact h
  | cons r rows ih => exact ih (hasKey_insertIgnore_mono key r h)

theorem hasKey_foldl_self (rows : List ρ) (t : List ρ) :
    ∀ r ∈ rows, hasKey key (rows.foldl (insertIgnore key) t) (key r) := by
  induction rows generalizing t with
  | nil => intro r hr; simp at hr
  | cons a rows ih =>
    intro r hr
    rcases List.mem_cons.mp hr with h | h
    · subst h
      exact hasKey_foldl_mono key rows (hasKey_insertIgnore_self key t _)
    · exact ih (insertIgnore key t a) r h

theorem foldl_insertIgnore_noop (rows : List ρ) (t : List ρ)
    (h : ∀ r ∈ rows, hasKey key t (key r)) :
    rows.foldl (insertIgnore key) t = t := by
  induction rows with
  | nil => rfl
  | cons a rows ih =>
    have ha : insertIgnore key t a = t := by
      unfold insertIgnore
      rw [if_pos (h a (by simp))]
    rw [List.foldl_cons, ha, ih (fun r hr => h r (by simp [hr]))]

theorem foldl_insertIgnore_fresh (rows : List ρ) (t : List ρ)
    (hfresh : ∀ r ∈ rows, ¬ hasKey key t (key r))
    (hnd : (rows.map key).Nodup) :
    rows.foldl (insertIgnore key) t = t ++ rows := by
  induction rows generalizing t with
  | nil => simp
  | cons a rows ih =>
    have ha : insertIgnore key t a = t ++ [a] := by
      unfold insertIgnore
      rw [if_neg (hfresh a (by simp))]
    rw [List.foldl_cons, ha, ih (t ++ [a]), List.append_assoc]
    · rfl
    · intro r hr hk
      obtain ⟨x, hx, hxk⟩ := hk
      rcases List.mem_append.mp hx with h | h
      · exact hfresh r (by simp [hr]) ⟨x, h, hxk⟩
      · have : x = a := by simpa using h
        subst this
        rw [List.map_cons] at hnd
        exact (List.nodup_cons.mp hnd).1 (hxk ▸ List.mem_map_of_mem key hr)
    · exact (List.nodup_cons.mp (List.map_cons key a rows ▸ hnd)).2

theorem nodup_keys_insertIgnore {t : List ρ} (row : ρ)
    (h : (t.map key).Nodup) : ((insertIgnore key t row).map key).Nodup := by
  unfold insertIgnore
  split
  · exact h
  · rename_i hk
    rw [List.map_append]
    simp only [List.map_cons, List.map_nil]
    apply List.Nodup.append h (by simp)
    intro x hx hy
    have : x = key row := by simpa using hy
    subst this
    obtain ⟨r, hr, hrk⟩ := List.mem_map.mp hx
    exact hk ⟨r, hr, hrk⟩

theorem nodup_keys_foldl (rows : List ρ) {t : List ρ}
    (h : (t.map key).Nodup) :
    (((rows.foldl (insertIgnore key) t)).map key).Nodup := by
  induction rows generalizing t with
  | nil => exact h
  | cons a rows ih => exact ih (nodup_keys_insertIgnore key a h)

theorem mem_insertIgnore {t : List ρ} {row r : ρ}
    (h : r ∈ insertIgnore key t row) : r ∈ t ∨ r = row := by
  unfold insertIgnore at h
  split at h
  · exact Or.inl h
  · rcases List.mem_append.mp h with h | h
    · exact Or.inl h
    · exact Or.inr (by simpa using h)

end InsertFold

/-! ## Member-table fold lemmas (insert with the CHECK constraint) -/

theorem hasKey_insertMember_mono {t : List MemberRow} {k : Int} (row : MemberRow)
    (h : hasKey MemberRow.id t k) :
    hasKey MemberRow.id (insertMemberIgnore t row) k := by
  unfold insertMemberIgnore
  split
  · exact hasKey_insertIgnore_mono MemberRow.id row h
  · exact h

theorem hasKey_foldlMember_mono (rows : List MemberRow) {t : List MemberRow}
    {k : Int} (h : hasKey MemberRow.id t k) :
    hasKey MemberRow.id (rows.foldl insertMemberIgnore t) k := by
  induction rows generalizing t with
  | nil => exact h
  | cons r rows ih => exact ih (hasKey_insertMember_mono r h)

theorem hasKey_foldlMember_self (rows : List MemberRow) (t : List MemberRow) :
    ∀ r ∈ rows, memberRowCheck r →
      hasKey MemberRow.id (rows.foldl insertMemberIgnore t) r.id := by
  induction rows generalizing t with
  | nil => intro r hr; simp at hr
  | cons a rows ih =>
    intro r hr hchk
    rcases List.mem_cons.mp hr with h | h
    · subst h
      apply hasKey_foldlMember_mono rows
      unfold insertMemberIgnore
      rw [if_pos hchk]
      exact hasKey_insertIgnore_self MemberRow.id t _
    · exact ih (insertMemberIgnore t a) r h hchk

theorem foldl_insertMember_noop (rows : List MemberRow) (t : List MemberRow)
    (h : ∀ r ∈ rows, memberRowCheck r → hasKey MemberRow.id t r.id) :
    rows.foldl insertMemberIgnore t = t := by
  induction rows with
  | nil => rfl
  | cons a rows ih =>
    have ha : insertMemberIgnore t a = t := by
      unfold insertMemberIgnore
      split
      · rename_i hchk
        unfold insertIgnore
        rw [if_pos (h a (by simp) hchk)]
      · rfl
    rw [List.foldl_cons, ha, ih (fun r hr => h r (by simp [hr]))]

theorem foldl_insertMember_fresh (rows : List MemberRow) (t : List MemberRow)
    (hchk : ∀ r ∈ rows, memberRowCheck r)
    (hfresh : ∀ r ∈ rows, ¬ hasKey MemberRow.id t r.id)
    (hnd : (rows.map MemberRow.id).Nodup) :
    rows.foldl insertMemberIgnore t = t ++ rows := by
  induction rows generalizing t with
  | nil => simp
  | cons a rows ih =>
    have ha : insertMemberIgnore t a = t ++ [a] := by
      unfold insertMemberIgnore insertIgnore
      rw [if_pos (hchk a (by simp)), if_neg (hfresh a (by simp))]
    rw [List.foldl_cons, ha, ih (t ++ [a]), List.append_assoc]
    · rfl
    · intro r hr
      exact hchk r (by simp [hr])
    · intro r hr hk
      obtain ⟨x, hx, hxk⟩ := hk
      rcases List.mem_append.mp hx with h | h
      · exact hfresh r (by simp [hr]) ⟨x, h, hxk⟩
      · have : x = a := by simpa using h
        subst this
        rw [List.map_cons] at hnd
        exact (List.nodup_cons.mp hnd).1
          (hxk ▸ List.mem_map_of_mem MemberRow.id hr)
    · exact (List.nodup_cons.mp (List.map_cons MemberRow.id a rows ▸ hnd)).2

theorem mem_insertMemberIgnore {t : List MemberRow} {row r : MemberRow}
    (h : r ∈ insertMemberIgnore t row) :
    r ∈ t ∨ (r = row ∧ memberRowCheck row) := by
  unfold insertMemberIgnore at h
  by_cases hchk : memberRowCheck row
  · rw [if_pos hchk] at h
    rcases mem_insertIgnore MemberRow.id h with h2 | h2
    · exact Or.inl h2
    · exact Or.inr ⟨h2, hchk⟩
  · rw [if_neg hchk] at h
    exact Or.inl h

theorem mem_foldlMember (rows : List MemberRow) {t : List MemberRow}
    {r : MemberRow} (h : r ∈ rows.foldl insertMemberIgnore t) :
    r ∈ t ∨ (r ∈ rows ∧ memberRowCheck r) := by
  induction rows generalizing t with
  | nil => exact Or.inl h
  | cons a rows ih =>
    rcases ih (t := insertMemberIgnore t a) h with h2 | h2
    · rcases mem_insertMemberIgnore h2 with h3 | h3
      · exact Or.inl h3
      · exact Or.inr ⟨by simp [h3.1], h3.1 ▸ h3.2⟩
    · exact Or.inr ⟨by simp [h2.1], h2.2⟩

theorem nodup_keys_insertMember {t : List MemberRow} (row : MemberRow)
    (h : (t.map MemberRow.id).Nodup) :
    ((insertMemberIgnore t row).map MemberRow.id).Nodup := by
  unfold insertMemberIgnore
  split
  · exact nodup_keys_insertIgnore MemberRow.id row h
  · exact h

theorem nodup_keys_foldlMember (rows : List MemberRow) {t : List MemberRow}
    (h : (t.map MemberRow.id).Nodup) :
    ((rows.foldl insertMemberIgnore t).map MemberRow.id).Nodup := by
  induction rows generalizing t with
  | nil => exact h
  | cons a rows ih => exact ih (nodup_keys_insertMember a h)

/-! ## Flat forms of the inserters: chunked folds collapse to one fold per
table, in row order -/

theorem foldl_field_node (F : List NodeRow → α → List NodeRow) (C : List α)
    (S : Store) :
    C.foldl (fun St c => { St with node := F St.node c }) S
      = { S with node := C.foldl F S.node } := by
  induction C generalizing S with
  | nil => rfl
  | cons c C ih => rw [List.foldl_cons, List.foldl_cons, ih]

theorem foldl_field_node_tags (F : List TagRow → α → List TagRow) (C : List α)
    (S : Store) :
    C.foldl (fun St c => { St with node_tags := F St.node_tags c }) S
      = { S with node_tags := C.foldl F S.node_tags } := by
  induction C generalizing S with
  | nil => rfl
  | cons c C ih => rw [List.foldl_cons, List.foldl_cons, ih]

theorem foldl_field_way (F : List WayRow → α → List WayRow) (C : List α)
    (S : Store) :
    C.foldl (fun St c => { St with way := F St.way c }) S
      = { S with way := C.foldl F S.way } := by
  induction C generalizing S with
  | nil => rfl
  | cons c C ih => rw [List.foldl_cons, List.foldl_cons, ih]

theorem foldl_field_way_nodes (F : List WayNodeRow → α → List WayNodeRow)
    (C : List α) (S : Store) :
    C.foldl (fun St c => { St with way_nodes := F St.way_nodes c }) S
      = { S with way_nodes := C.foldl F S.way_nodes } := by
  induction C generalizing S with
  | nil => rfl
  | cons c C ih => rw [List.foldl_cons, List.foldl_cons, ih]

theorem foldl_field_way_tags (F : List TagRow → α → List TagRow) (C : List α)
    (S : Store) :
    C.foldl (fun St c => { St with way_tags := F St.way_tags c }) S
      = { S with way_tags := C.foldl F S.way_tags } := by
  induction C generalizing S with
  | nil => rfl
  | cons c C ih => rw [List.foldl_cons, List.foldl_cons, ih]

theorem foldl_field_relation (F : List RelationRow → α → List RelationRow)
    (C : List α) (S : Store) :
    C.foldl (fun St c => { St with relation := F St.relation c }) S
      = { S with relation := C.foldl F S.relation } := by
  induction C generalizing S with
  | nil => rfl
  | cons c C ih => rw [List.foldl_cons, List.foldl_cons, ih]

theorem foldl_field_member (F : List MemberRow → α → List MemberRow)
    (C : List α) (S : Store) :
    C.foldl (fun St c => { St with member := F St.member c }) S
      = { S with member := C.foldl F S.member } := by
  induction C generalizing S with
  | nil => rfl
  | cons c C ih => rw [List.foldl_cons, List.foldl_cons, ih]

theorem foldl_field_relation_tags (F : List TagRow → α → List TagRow)
    (C : List α) (S : Store) :
    C.foldl (fun St c => { St with relation_tags := F St.relation_tags c }) S
      = { S with relation_tags := C.foldl F S.relation_tags } := by
  induction C generalizing S with
  | nil => rfl
  | cons c C ih => rw [List.foldl_cons, List.foldl_cons, ih]

theorem foldl_foldl_flatten (ins : List ρ → σ → List ρ) (g : α → List σ)
    (C : List α) (t : List ρ) :
    C.foldl (fun t c => (g c).foldl ins t) t = ((C.map g).flatten).foldl ins t := by
  induction C generalizing t with
  | nil => rfl
  | cons c C ih =>
    rw [List.foldl_cons, ih, List.map_cons, List.flatten_cons, List.foldl_append]

/-- The flattened node_tags rows that insert_node_data binds, in order. -/
def nodeTagRows (nodes : List Node) : List TagRow :=
  (nodes.map (fun n => n.tags.map (fun t => TagRow.mk n.id t.key t.value))).flatten

/-- The flattened way_tags rows that insert_way_data binds, in order. -/
def wayTagRows (ways : List Way) : List TagRow :=
  (ways.map (fun w => w.tags.map (fun t => TagRow.mk w.id t.key t.value))).flatten

/-- The flattened relation_tags rows that insert_relation_data binds. -/
def relationTagRows (relations : List Relation) : List TagRow :=
  (relations.map (fun r =>
    r.tags.map (fun t => TagRow.mk r.id t.key t.value))).flatten

/-- The flattened way_nodes rows that insert_way_data binds, in order. -/
def wayNodeRows (ways : List Way) : List WayNodeRow :=
  (Way.extract_way_node_refs ways).map (fun p => WayNodeRow.mk p.1 p.2)

/-- The flattened member rows that insert_relation_data binds, in order. -/
def memberRowsOf (relations : List Relation) : List MemberRow :=
  (Relation.extract_members relations).map (fun p => memberBindRow p.1 p.2)

theorem foldl_chunks (ins : List ρ → σ → List ρ) {k : Nat} (hk : 0 < k)
    (rows : List σ) (t : List ρ) :
    (chunksOf k rows).foldl (List.foldl ins) t = rows.foldl ins t := by
  conv_rhs => rw [← chunksOf_flatten k hk rows]
  generalize chunksOf k rows = C
  induction C generalizing t with
  | nil => rfl
  | cons c C ih =>
    rw [List.flatten_cons, List.foldl_cons, List.foldl_append, ih]

theorem nodeTagsOuter (k : Nat) (C : List (List Node)) (S : Store) :
    C.foldl (fun St chunk =>
      { St with node_tags := (List.foldl (List.foldl (insertIgnore tagRowKey))
          St.node_tags (chunksOf k ((chunk.map (fun n =>
            n.tags.map (fun t => TagRow.mk n.id t.key t.value))).flatten))) }) S
      = { S with node_tags := (C.foldl (fun t chunk =>
          List.foldl (List.foldl (insertIgnore tagRowKey)) t
            (chunksOf k ((chunk.map (fun n =>
              n.tags.map (fun t => TagRow.mk n.id t.key t.value))).flatten)))
          S.node_tags) } := by
  induction C generalizing S with
  | nil => rfl
  | cons c C ih => rw [List.foldl_cons, List.foldl_cons, ih]

theorem insert_node_data_eq (S : Store) (ns : List Node) :
    insert_node_data S ns =
      { S with
        node := ns.foldl (fun t n => insertIgnore NodeRow.id t (nodeRowOf n)) S.node
        node_tags := (nodeTagRows ns).foldl (insertIgnore tagRowKey) S.node_tags } := by
  have h8 : (0 : Nat) < (999 / 8).min 4000 := by norm_num
  have h3 : (0 : Nat) < (999 / 3).min 4000 := by norm_num
  simp only [insert_node_data, foldl_field_node, foldl_field_node_tags]
  rw [nodeTagsOuter]
  simp only [foldl_chunks _ h3, foldl_chunks _ h8]
  have hflat := foldl_foldl_flatten (insertIgnore tagRowKey)
    (fun chunk : List Node =>
      (chunk.map (fun n => n.tags.map (fun t => TagRow.mk n.id t.key t.value))).flatten)
    (chunksOf ((999 / 8).min 4000) ns) S.node_tags
  rw [flatten_map_flatten, chunksOf_flatten _ h8] at hflat
  congr 1

theorem wayNodesOuter (k : Nat) (C : List (List Way)) (S : Store) :
    C.foldl (fun St chunk =>
      { St with way_nodes := (List.foldl (List.foldl (fun t p =>
          insertIgnore wayNodeKey t (WayNodeRow.mk p.1 p.2)))
          St.way_nodes (chunksOf k (Way.extract_way_node_refs chunk))) }) S
      = { S with way_nodes := (C.foldl (fun t chunk =>
          List.foldl (List.foldl (fun t p =>
            insertIgnore wayNodeKey t (WayNodeRow.mk p.1 p.2))) t
            (chunksOf k (Way.extract_way_node_refs chunk))) S.way_nodes) } := by
  induction C generalizing S with
  | nil => rfl
  | cons c C ih => rw [List.foldl_cons, List.foldl_cons, ih]

theorem wayTagsOuter (k : Nat) (C : List (List Way)) (S : Store) :
    C.foldl (fun St chunk =>
      { St with way_tags := (List.foldl (List.foldl (insertIgnore tagRowKey))
          St.way_tags (chunksOf k ((chunk.map (fun w =>
            w.tags.map (fun t => TagRow.mk w.id t.key t.value))).flatten))) }) S
      = { S with way_tags := (C.foldl (fun t chunk =>
          List.foldl (List.foldl (insertIgnore tagRowKey)) t
            (chunksOf k ((chunk.map (fun w =>
              w.tags.map (fun t => TagRow.mk w.id t.key t.value))).flatten)))
          S.way_tags) } := by
  induction C generalizing S with
  | nil => rfl
  | cons c C ih => rw [List.foldl_cons, List.foldl_cons, ih]

theorem memberOuter (k : Nat) (C : List (List Relation)) (S : Store) :
    C.foldl (fun St chunk =>
      { St with member := (List.foldl (List.foldl (fun t p =>
          insertMemberIgnore t (memberBindRow p.1 p.2)))
          St.member (chunksOf k (Relation.extract_members chunk))) }) S
      = { S with member := (C.foldl (fun t chunk =>
          List.foldl (List.foldl (fun t p =>
            insertMemberIgnore t (memberBindRow p.1 p.2))) t
            (chunksOf k (Relation.extract_members chunk))) S.member) } := by
  induction C generalizing S with
  | nil => rfl
  | cons c C ih => rw [List.foldl_cons, List.foldl_cons, ih]

theorem relationTagsOuter (k : Nat) (C : List (List Relation)) (S : Store) :
    C.foldl (fun St chunk =>
      { St with relation_tags := (List.foldl (List.foldl (insertIgnore tagRowKey))
          St.relation_tags (chunksOf k ((chunk.map (fun r =>
            r.tags.map (fun t => TagRow.mk r.id t.key t.value))).flatten))) }) S
      = { S with relation_tags := (C.foldl (fun t chunk =>
          List.foldl (List.foldl (insertIgnore tagRowKey)) t
            (chunksOf k ((chunk.map (fun r =>
              r.tags.map (fun t => TagRow.mk r.id t.key t.value))).flatten)))
          S.relation_tags) } := by
  induction C generalizing S with
  | nil => rfl
  | cons c C ih => rw [List.foldl_cons, List.foldl_cons, ih]

theorem extract_way_node_refs_chunks (k : Nat) (hk : 0 < k) (ws : List Way) :
    ((chunksOf k ws).map Way.extract_way_node_refs).flatten
      = Way.extract_way_node_refs ws := by
  calc ((chunksOf k ws).map Way.extract_way_node_refs).flatten
      = (((chunksOf k ws).flatten).map
          (fun w => w.node_refs.map (fun r => (w.id, r)))).flatten :=
        flatten_map_flatten _ _
    _ = Way.extract_way_node_refs ws := by
        rw [chunksOf_flatten _ hk]; rfl

theorem extract_members_chunks (k : Nat) (hk : 0 < k) (rs : List Relation) :
    ((chunksOf k rs).map Relation.extract_members).flatten
      = Relation.extract_members rs := by
  calc ((chunksOf k rs).map Relation.extract_members).flatten
      = (((chunksOf k rs).flatten).map
          (fun r => r.members.map (fun m => (r.id, m)))).flatten :=
        flatten_map_flatten _ _
    _ = Relation.extract_members rs := by
        rw [chunksOf_flatten _ hk]; rfl

theorem insert_way_data_eq (S : Store) (ws : List Way) :
    insert_way_data S ws =
      { S with
        way := ws.foldl (fun t w => insertIgnore WayRow.id t (wayRowOf w)) S.way
        way_nodes := (Way.extract_way_node_refs ws).foldl
          (fun t p => insertIgnore wayNodeKey t (WayNodeRow.mk p.1 p.2)) S.way_nodes
        way_tags := (wayTagRows ws).foldl (insertIgnore tagRowKey) S.way_tags } := by
  have h6 : (0 : Nat) < (999 / 6).min 4000 := by norm_num
  have h2 : (0 : Nat) < (999 / 2).min 4000 := by norm_num
  have h3 : (0 : Nat) < (999 / 3).min 4000 := by norm_num
  simp only [insert_way_data, foldl_field_way, foldl_field_way_nodes,
    foldl_field_way_tags]
  rw [wayNodesOuter, wayTagsOuter]
  simp only [foldl_chunks _ h6, foldl_chunks _ h2, foldl_chunks _ h3]
  have hwn := foldl_foldl_flatten
    (fun t (p : Int × Int) => insertIgnore wayNodeKey t (WayNodeRow.mk p.1 p.2))
    Way.extract_way_node_refs (chunksOf ((999 / 6).min 4000) ws) S.way_nodes
  rw [extract_way_node_refs_chunks _ h6] at hwn
  have htags := foldl_foldl_flatten (insertIgnore tagRowKey)
    (fun chunk : List Way =>
      (chunk.map (fun w => w.tags.map (fun t => TagRow.mk w.id t.key t.value))).flatten)
    (chunksOf ((999 / 6).min 4000) ws) S.way_tags
  rw [flatten_map_flatten, chunksOf_flatten _ h6] at htags
  congr 1

theorem insert_relation_data_eq (S : Store) (rs : List Relation) :
    insert_relation_data S rs =
      { S with
        relation := rs.foldl
          (fun t r => insertIgnore RelationRow.id t (relationRowOf r)) S.relation
        member := (Relation.extract_members rs).foldl
          (fun t p => insertMemberIgnore t (memberBindRow p.1 p.2)) S.member
        relation_tags := (relationTagRows rs).foldl
          (insertIgnore tagRowKey) S.relation_tags } := by
  have h6 : (0 : Nat) < (999 / 6).min 4000 := by norm_num
  have h4 : (0 : Nat) < (999 / 4).min 4000 := by norm_num
  have h3 : (0 : Nat) < (999 / 3).min 4000 := by norm_num
  simp only [insert_relation_data, foldl_field_relation, foldl_field_member,
    foldl_field_relation_tags]
  rw [memberOuter, relationTagsOuter]
  simp only [foldl_chunks _ h6, foldl_chunks _ h4, foldl_chunks _ h3]
  have hm := foldl_foldl_flatten
    (fun t (p : Int × Member) => insertMemberIgnore t (memberBindRow p.1 p.2))
    Relation.extract_members (chunksOf ((999 / 6).min 4000) rs) S.member
  rw [extract_members_chunks _ h6] at hm
  have htags := foldl_foldl_flatten (insertIgnore tagRowKey)
    (fun chunk : List Relation =>
      (chunk.map (fun r => r.tags.map (fun t => TagRow.mk r.id t.key t.value))).flatten)
    (chunksOf ((999 / 6).min 4000) rs) S.relation_tags
  rw [flatten_map_flatten, chunksOf_flatten _ h6] at htags
  congr 1

theorem insert_node_data_eq2 (S : Store) (ns : List Node) :
    insert_node_data S ns =
      { S with
        node := ((ns.map nodeRowOf).foldl (insertIgnore NodeRow.id) S.node)
        node_tags := ((nodeTagRows ns).foldl (insertIgnore tagRowKey) S.node_tags) } := by
  rw [insert_node_data_eq, List.foldl_map]

theorem insert_way_data_eq2 (S : Store) (ws : List Way) :
    insert_way_data S ws =
      { S with
        way := ((ws.map wayRowOf).foldl (insertIgnore WayRow.id) S.way)
        way_nodes := ((wayNodeRows ws).foldl (insertIgnore wayNodeKey) S.way_nodes)
        way_tags := ((wayTagRows ws).foldl (insertIgnore tagRowKey) S.way_tags) } := by
  rw [insert_way_data_eq, List.foldl_map]
  unfold wayNodeRows
  rw [List.foldl_map]

theorem insert_relation_data_eq2 (S : Store) (rs : List Relation) :
    insert_relation_data S rs =
      { S with
        relation := ((rs.map relationRowOf).foldl (insertIgnore RelationRow.id) S.relation)
        member := ((memberRowsOf rs).foldl insertMemberIgnore S.member)
        relation_tags := ((relationTagRows rs).foldl (insertIgnore tagRowKey) S.relation_tags) } := by
  rw [insert_relation_data_eq, List.foldl_map]
  unfold memberRowsOf
  rw [List.foldl_map]

/-- The full load sequence of one pipeline run: nodes, then ways, then
relations, each with its child rows, as main drives the inserters. -/
def loadAll (S : Store) (ns : List Node) (ws : List Way) (rs : List Relation) :
    Store :=
  insert_relation_data (insert_way_data (insert_node_data S ns) ws) rs

theorem loadAll_eq (S : Store) (ns : List Node) (ws : List Way)
    (rs : List Relation) :
    loadAll S ns ws rs =
      { node := ((ns.map nodeRowOf).foldl (insertIgnore NodeRow.id) S.node)
        node_tags := ((nodeTagRows ns).foldl (insertIgnore tagRowKey) S.node_tags)
        way := ((ws.map wayRowOf).foldl (insertIgnore WayRow.id) S.way)
        way_nodes := ((wayNodeRows ws).foldl (insertIgnore wayNodeKey) S.way_nodes)
        way_tags := ((wayTagRows ws).foldl (insertIgnore tagRowKey) S.way_tags)
        relation := ((rs.map relationRowOf).foldl (insertIgnore RelationRow.id) S.relation)
        member := ((memberRowsOf rs).foldl insertMemberIgnore S.member)
        relation_tags := ((relationTagRows rs).foldl (insertIgnore tagRowKey) S.relation_tags) } := by
  simp only [loadAll, insert_node_data_eq2, insert_way_data_eq2,
    insert_relation_data_eq2]

/-- C5: Idempotent re-insertion — running insert_node_data,
insert_way_data and insert_relation_data a second time with the same
input leaves the store exactly as one run does (hence every table's row
count is unchanged by the second call; the model's insert-or-ignore
inserts cannot fail, matching the second run returning Ok), both for each
entry point separately and for the full load sequence. -/
theorem C5_idempotent_reinsertion (S : Store) (ns : List Node) (ws : List Way)
    (rs : List Relation) :
    insert_node_data (insert_node_data S ns) ns = insert_node_data S ns
    ∧ insert_way_data (insert_way_data S ws) ws = insert_way_data S ws
    ∧ insert_relation_data (insert_relation_data S rs) rs
        = insert_relation_data S rs
    ∧ loadAll (loadAll S ns ws rs) ns ws rs = loadAll S ns ws rs := by
  have noopN : ∀ t : List NodeRow,
      (ns.map nodeRowOf).foldl (insertIgnore NodeRow.id)
        ((ns.map nodeRowOf).foldl (insertIgnore NodeRow.id) t)
      = (ns.map nodeRowOf).foldl (insertIgnore NodeRow.id) t :=
    fun t => foldl_insertIgnore_noop NodeRow.id _ _
      (fun r hr => hasKey_foldl_self NodeRow.id _ t r hr)
  have noopNT : ∀ t : List TagRow,
      (nodeTagRows ns).foldl (insertIgnore tagRowKey)
        ((nodeTagRows ns).foldl (insertIgnore tagRowKey) t)
      = (nodeTagRows ns).foldl (insertIgnore tagRowKey) t :=
    fun t => foldl_insertIgnore_noop tagRowKey _ _
      (fun r hr => hasKey_foldl_self tagRowKey _ t r hr)
  have noopW : ∀ t : List WayRow,
      (ws.map wayRowOf).foldl (insertIgnore WayRow.id)
        ((ws.map wayRowOf).foldl (insertIgnore WayRow.id) t)
      = (ws.map wayRowOf).foldl (insertIgnore WayRow.id) t :=
    fun t => foldl_insertIgnore_noop WayRow.id _ _
      (fun r hr => hasKey_foldl_self WayRow.id _ t r hr)
  have noopWN : ∀ t : List WayNodeRow,
      (wayNodeRows ws).foldl (insertIgnore wayNodeKey)
        ((wayNodeRows ws).foldl (insertIgnore wayNodeKey) t)
      = (wayNodeRows ws).foldl (insertIgnore wayNodeKey) t :=
    fun t => foldl_insertIgnore_noop wayNodeKey _ _
      (fun r hr => hasKey_foldl_self wayNodeKey _ t r hr)
  have noopWT : ∀ t : List TagRow,
      (wayTagRows ws).foldl (insertIgnore tagRowKey)
        ((wayTagRows ws).foldl (insertIgnore tagRowKey) t)
      = (wayTagRows ws).foldl (insertIgnore tagRowKey) t :=
    fun t => foldl_insertIgnore_noop tagRowKey _ _
      (fun r hr => hasKey_foldl_self tagRowKey _ t r hr)
  have noopR : ∀ t : List RelationRow,
      (rs.map relationRowOf).foldl (insertIgnore RelationRow.id)
        ((rs.map relationRowOf).foldl (insertIgnore RelationRow.id) t)
      = (rs.map relationRowOf).foldl (insertIgnore RelationRow.id) t :=
    fun t => foldl_insertIgnore_noop RelationRow.id _ _
      (fun r hr => hasKey_foldl_self RelationRow.id _ t r hr)
  have noopM : ∀ t : List MemberRow,
      (memberRowsOf rs).foldl insertMemberIgnore
        ((memberRowsOf rs).foldl insertMemberIgnore t)
      = (memberRowsOf rs).foldl insertMemberIgnore t :=
    fun t => foldl_insertMember_noop _ _
      (fun r hr hchk => hasKey_foldlMember_self _ t r hr hchk)
  have noopRT : ∀ t : List TagRow,
      (relationTagRows rs).foldl (insertIgnore tagRowKey)
        ((relationTagRows rs).foldl (insertIgnore tagRowKey) t)
      = (relationTagRows rs).foldl (insertIgnore tagRowKey) t :=
    fun t => foldl_insertIgnore_noop tagRowKey _ _
      (fun r hr => hasKey_foldl_self tagRowKey _ t r hr)
  refine ⟨?_, ?_, ?_, ?_⟩
  · simp only [insert_node_data_eq2]
    rw [noopN, noopNT]
  · simp only [insert_way_data_eq2]
    rw [noopW, noopWN, noopWT]
  · simp only [insert_relation_data_eq2]
    rw [noopR, noopM, noopRT]
  · simp only [loadAll_eq]
    rw [noopN, noopNT, noopW, noopWN, noopWT, noopR, noopM, noopRT]

/-! ## Attribute-fold lemmas for the readers -/

theorem nodeApplyAttr_id {n n' : Node} {kv : String × String}
    (hk : kv.1 ≠ "id") (h : nodeApplyAttr n kv = .ok n') : n'.id = n.id := by
  unfold nodeApplyAttr at h
  rw [if_neg hk] at h
  split_ifs at h <;> (try split at h) <;> (try cases h) <;> rfl

theorem nodeApplyAttrs_id :
    ∀ (attrs : List (String × String)) (n₀ n : Node),
      (∀ kv ∈ attrs, kv.1 ≠ "id") →
      List.foldlM nodeApplyAttr n₀ attrs = .ok n → n.id = n₀.id := by
  intro attrs
  induction attrs with
  | nil =>
    intro n₀ n _ h
    cases h
    rfl
  | cons kv attrs ih =>
    intro n₀ n hk h
    rw [List.foldlM_cons] at h
    cases hstep : nodeApplyAttr n₀ kv with
    | error e => rw [hstep] at h; cases h
    | ok n₁ =>
      rw [hstep] at h
      have h1 : n.id = n₁.id := ih n₁ n (fun p hp => hk p (by simp [hp])) h
      rw [h1, nodeApplyAttr_id (hk kv (by simp)) hstep]

/-- C10: Missing attributes default silently — a node, way, or relation
start element with no attributes parses successfully into the all-default
record (id 0, lat and lon 0.0 where present, empty strings), and more
generally any attribute list without an id attribute whose present
attributes parse leaves the node id at the default 0. -/
theorem C10_missing_attributes_default :
    read_nodes_from_file [.start "node" []] = .ok [defaultNode]
    ∧ read_ways_from_file [.start "way" []] = .ok [defaultWay]
    ∧ read_relations_from_file [.start "relation" []] = .ok [defaultRelation]
    ∧ ∀ (attrs : List (String × String)) (n : Node),
        (∀ kv ∈ attrs, kv.1 ≠ "id") →
        nodeApplyAttrs attrs = .ok n → n.id = 0 := by
  refine ⟨rfl, rfl, rfl, ?_⟩
  intro attrs n hk h
  exact nodeApplyAttrs_id attrs defaultNode n hk h

/-- Witness for C10 at the concrete input: a node element carrying only a
user attribute parses with id still 0. -/
theorem C10_missing_attributes_default_witness :
    read_nodes_from_file [.start "node" []] = .ok [defaultNode]
    ∧ ({ defaultNode with user := "bob" } : Node).id = 0 :=
  ⟨C10_missing_attributes_default.1,
   C10_missing_attributes_default.2.2.2 [("user", "bob")]
     { defaultNode with user := "bob" } (by decide) (by rfl)⟩

/-- C3 counterexample: two members that differ only in role receive the
same synthetic id, so the id is not a hash of the four-tuple
(relationId, targetId, targetKind, role) that distinguishes differing
roles. -/
theorem C3_counterexample :
    (Member.new 5 .node "outer").id = (Member.new 5 .node "inner").id
    ∧ ("outer" : String) ≠ "inner" :=
  ⟨rfl, by decide⟩

/-- C3 amended: the synthetic member id equals memberHashId, the SHA-256
digest over (targetId as big-endian bytes, canonical targetKind string)
truncated to the first 8 bytes read as an i64; it is deterministic in
those two inputs and independent of the role (and of the enclosing
relation, which is not an input of Member::new in src/member.rs). -/
theorem C3_member_id_from_target_only (ref : Int) (mt : MapsType)
    (role role' : String) :
    (Member.new ref mt role).id = memberHashId ref mt
    ∧ (Member.new ref mt role).id = (Member.new ref mt role').id :=
  ⟨rfl, rfl⟩

/-- C2: insert_relation_data computes the member chunk size from a field
count of 4 while binding 7 parameters per member row; on a single relation
with 143 members, the one generated member INSERT binds 1001 parameters,
exceeding the 999-parameter ceiling the chunking is meant to enforce. -/
def c2FailingRelation : Relation :=
  { defaultRelation with
    id := 1
    members := List.replicate 143 (⟨0, 5, MapsType.node, ""⟩ : Member) }

set_option maxRecDepth 4000 in
theorem C2_member_statement_exceeds_ceiling :
    insert_relation_data_param_counts [c2FailingRelation] = [6, 1001]
    ∧ 1001 > 999 := by
  constructor
  · rfl
  · decide

/-- C4: read_nodes_from_file attaches every tag event to the most recently
pushed node regardless of which element actually encloses the tag: a tag
nested in a way element that follows a node is appended to that node's
tags. -/
theorem C4_way_tag_attached_to_node :
    read_nodes_from_file
      [.empty "node" [("id", "1")], .start "way" [("id", "2")],
       .empty "tag" [("k", "a"), ("v", "b")]]
      = .ok [{ defaultNode with id := 1, tags := [⟨"a", "b"⟩] }] := by
  rfl

/-! ## C7: way node-reference parsing -/

theorem modifyLast_cons_of_ne_nil (f : α → α) (a : α) {t : List α}
    (ht : t ≠ []) : modifyLast f (a :: t) = a :: modifyLast f t := by
  cases t with
  | nil => exact absurd rfl ht
  | cons b t2 => rfl

theorem modifyLast_append (f : α → α) (l : List α) (x : α) :
    modifyLast f (l ++ [x]) = l ++ [f x] := by
  induction l with
  | nil => rfl
  | cons a l ih =>
    rw [List.cons_append, modifyLast_cons_of_ne_nil f a (by simp), ih,
      List.cons_append]

theorem readWaysLoop_nd_ok (rest : List Event) (l : List Way) (hl : l ≠ [])
    (attrs : List (String × String)) (r : Int)
    (hnd : ndRefFromAttrs attrs = .ok r) :
    readWaysLoop (.empty "nd" attrs :: rest) l
      = readWaysLoop rest
          (if r ≠ -1 then
            modifyLast (fun w => { w with node_refs := w.node_refs ++ [r] }) l
          else l) := by
  cases l with
  | nil => exact absurd rfl hl
  | cons a t =>
    show (do
      let r2 ← ndRefFromAttrs attrs
      readWaysLoop rest
        (if r2 ≠ -1 then
          modifyLast (fun w => { w with node_refs := w.node_refs ++ [r2] })
            (a :: t)
        else a :: t)) = _
    rw [hnd]
    rfl

theorem readWaysLoop_nd_error (rest : List Event) (l : List Way) (hl : l ≠ [])
    (attrs : List (String × String)) (e : ParseError)
    (hnd : ndRefFromAttrs attrs = .error e) :
    readWaysLoop (.empty "nd" attrs :: rest) l = .error e := by
  cases l with
  | nil => exact absurd rfl hl
  | cons a t =>
    show (do
      let r2 ← ndRefFromAttrs attrs
      readWaysLoop rest
        (if r2 ≠ -1 then
          modifyLast (fun w => { w with node_refs := w.node_refs ++ [r2] })
            (a :: t)
        else a :: t)) = _
    rw [hnd]
    rfl

theorem ndRefFromAttrs_no_ref :
    ∀ (attrs : List (String × String)) (a : Int),
      (∀ kv ∈ attrs, kv.1 ≠ "ref") →
      attrs.foldlM
        (fun acc kv =>
          if kv.1 = "ref" then
            match parseI64 kv.2 with
            | some v => Except.ok v
            | none => Except.error ParseError.intError
          else .ok acc)
        a = .ok a := by
  intro attrs
  induction attrs with
  | nil => intro a _; rfl
  | cons kv attrs ih =>
    intro a hk
    rw [List.foldlM_cons, if_neg (hk kv (by simp))]
    exact ih a (fun p hp => hk p (by simp [hp]))

/-- C7 amended: a way's node-reference events append the parsed ref to the
current way's node_refs in document order (Scenario A: refs 7,3,9 come back
as [7,3,9]); an nd element without a ref attribute, or whose ref parses to
the sentinel -1, is silently skipped; but a ref attribute that fails to
parse as an integer aborts the whole parse with an error rather than being
skipped. -/
theorem C7_node_ref_parsing :
    (∀ (rest : List Event) (ws : List Way) (w : Way)
        (attrs : List (String × String)) (v : Int),
      ndRefFromAttrs attrs = .ok v → v ≠ -1 →
      readWaysLoop (.empty "nd" attrs :: rest) (ws ++ [w])
        = readWaysLoop rest (ws ++ [{ w with node_refs := w.node_refs ++ [v] }]))
    ∧ (∀ (rest : List Event) (acc : List Way) (attrs : List (String × String)),
      (∀ kv ∈ attrs, kv.1 ≠ "ref") →
      readWaysLoop (.empty "nd" attrs :: rest) acc = readWaysLoop rest acc)
    ∧ (∀ (rest : List Event) (acc : List Way) (attrs : List (String × String)),
      ndRefFromAttrs attrs = .ok (-1) →
      readWaysLoop (.empty "nd" attrs :: rest) acc = readWaysLoop rest acc)
    ∧ (∀ (rest : List Event) (acc : List Way) (attrs : List (String × String))
        (e : ParseError), acc ≠ [] → ndRefFromAttrs attrs = .error e →
      readWaysLoop (.empty "nd" attrs :: rest) acc = .error e)
    ∧ read_ways_from_file
        [.start "way" [("id", "1")], .empty "nd" [("ref", "7")],
         .empty "nd" [("ref", "3")], .empty "nd" [("ref", "9")]]
      = .ok [{ defaultWay with id := 1, node_refs := [7, 3, 9] }] := by
  have skip : ∀ (rest : List Event) (acc : List Way)
      (attrs : List (String × String)),
      ndRefFromAttrs attrs = .ok (-1) →
      readWaysLoop (.empty "nd" attrs :: rest) acc = readWaysLoop rest acc := by
    intro rest acc attrs hnd
    cases acc with
    | nil => simp [readWaysLoop]
    | cons a t =>
      rw [readWaysLoop_nd_ok rest (a :: t) (by simp) attrs (-1) hnd]
      simp
  refine ⟨?_, ?_, skip, ?_, ?_⟩
  · intro rest ws w attrs v hnd hv
    rw [readWaysLoop_nd_ok rest (ws ++ [w]) (by simp) attrs v hnd,
      if_pos hv, modifyLast_append]
  · intro rest acc attrs hk
    exact skip rest acc attrs (ndRefFromAttrs_no_ref attrs (-1) hk)
  · intro rest acc attrs e hne hnd
    cases acc with
    | nil => exact absurd rfl hne
    | cons a t =>
      exact readWaysLoop_nd_error rest (a :: t) (by simp) attrs e hnd
  · rfl

/-- Witness for C7 at concrete inputs: appending ref 7 to a single open
way, skipping an nd element with no ref attribute, skipping ref -1, and
aborting on a malformed ref. -/
theorem C7_node_ref_parsing_witness :
    readWaysLoop [.empty "nd" [("ref", "7")]] ([] ++ [defaultWay])
      = readWaysLoop [] ([] ++ [{ defaultWay with
          node_refs := defaultWay.node_refs ++ [7] }])
    ∧ readWaysLoop [.empty "nd" [("k", "v")]] [defaultWay]
      = readWaysLoop [] [defaultWay]
    ∧ readWaysLoop [.empty "nd" [("ref", "-1")]] [defaultWay]
      = readWaysLoop [] [defaultWay]
    ∧ readWaysLoop [.empty "nd" [("ref", "x")]] [defaultWay]
      = .error .intError :=
  ⟨C7_node_ref_parsing.1 [] [] defaultWay [("ref", "7")] 7 (by rfl) (by decide),
   C7_node_ref_parsing.2.1 [] [defaultWay] [("k", "v")] (by decide),
   C7_node_ref_parsing.2.2.1 [] [defaultWay] [("ref", "-1")] (by rfl),
   C7_node_ref_parsing.2.2.2.1 [] [defaultWay] [("ref", "x")] .intError
     (by decide) (by rfl)⟩

/-- C7 counterexample: a ref attribute that fails integer parsing aborts
the whole parse with an error; the document does not parse successfully as
the claim states. -/
theorem C7_counterexample :
    read_ways_from_file [.start "way" [], .empty "nd" [("ref", "x")]]
      = .error .intError := rfl

/-! ## C9: member identity across relations and the member table -/

/-- The (target id, target kind) view of a stored member row: the
foreign-key slot selected by the member_type discriminant, with the
discriminant itself. -/
def memberRowTarget (r : MemberRow) : Option Int × String :=
  (if r.member_type = "node" then r.node_id
   else if r.member_type = "way" then r.way_id
   else if r.member_type = "relation" then r.relation_ref_id
   else none,
   r.member_type)

/-- A MapsType that the schema can store. -/
def knownKind (mt : MapsType) : Prop :=
  mt = .node ∨ mt = .way ∨ mt = .relation

instance (mt : MapsType) : Decidable (knownKind mt) := by
  unfold knownKind; infer_instance

theorem memberBindRow_check (relid : Int) (m : Member) :
    memberRowCheck (memberBindRow relid m) ↔ knownKind m.maps_type := by
  obtain ⟨mid, mref, mt, mrole⟩ := m
  cases mt <;> simp [memberBindRow, memberRowCheck, MapsType.as_str, knownKind]

theorem memberBindRow_target (relid : Int) (m : Member)
    (h : knownKind m.maps_type) :
    memberRowTarget (memberBindRow relid m)
      = (some m.ref_id, m.maps_type.as_str) := by
  obtain ⟨mid, mref, mt, mrole⟩ := m
  rcases h with h | h | h <;> subst h <;>
    simp [memberRowTarget, memberBindRow, MapsType.as_str]

theorem as_str_inj {mt₁ mt₂ : MapsType} (h₁ : knownKind mt₁)
    (h₂ : knownKind mt₂) (h : mt₁.as_str = mt₂.as_str) : mt₁ = mt₂ := by
  rcases h₁ with h₁ | h₁ | h₁ <;> rcases h₂ with h₂ | h₂ | h₂ <;>
    subst h₁ <;> subst h₂ <;> first | rfl | (exfalso; simp [MapsType.as_str] at h)

/-- C9: Member::new computes the synthetic id from (ref_id, maps_type)
only, so the ids of two members with equal target id and kind coincide
regardless of role (the enclosing relation is not even an input); and in a
member table built by insert_relation_data's per-row inserts from such
members, the primary key id together with INSERT OR IGNORE leaves at most
one stored row per (target id, target kind) pair across all relations. -/
theorem C9_member_id_collision :
    (∀ (ref : Int) (mt : MapsType) (role role' : String),
      (Member.new ref mt role).id = (Member.new ref mt role').id)
    ∧ ∀ (pairs : List (Int × Member)),
      (∀ p ∈ pairs, ∃ role, p.2 = Member.new p.2.ref_id p.2.maps_type role) →
      ∀ r₁ ∈ pairs.foldl (fun t p => insertMemberIgnore t (memberBindRow p.1 p.2)) [],
      ∀ r₂ ∈ pairs.foldl (fun t p => insertMemberIgnore t (memberBindRow p.1 p.2)) [],
        memberRowTarget r₁ = memberRowTarget r₂ → r₁ = r₂ := by
  constructor
  · intro ref mt role role'
    rfl
  · intro pairs hnew r₁ hr₁ r₂ hr₂ htgt
    have hfold : pairs.foldl (fun t p => insertMemberIgnore t (memberBindRow p.1 p.2)) []
        = (pairs.map (fun p => memberBindRow p.1 p.2)).foldl insertMemberIgnore [] :=
      (List.foldl_map _ _ _ _).symm
    rw [hfold] at hr₁ hr₂
    have hnd : (((pairs.map (fun p => memberBindRow p.1 p.2)).foldl
        insertMemberIgnore []).map MemberRow.id).Nodup :=
      nodup_keys_foldlMember _ (by simp)
    have hprop : ∀ r ∈ (pairs.map (fun p => memberBindRow p.1 p.2)).foldl
        insertMemberIgnore [], ∃ m : Member, knownKind m.maps_type
          ∧ r.id = memberHashId m.ref_id m.maps_type
          ∧ memberRowTarget r = (some m.ref_id, m.maps_type.as_str) := by
      intro r hr
      rcases mem_foldlMember _ hr with h | ⟨hmem, hchk⟩
      · simp at h
      · obtain ⟨p, hp, hbind⟩ := List.mem_map.mp hmem
        obtain ⟨role, hrole⟩ := hnew p hp
        have hkind : knownKind p.2.maps_type := by
          rw [← hbind] at hchk
          exact (memberBindRow_check p.1 p.2).mp hchk
        have hid : p.2.id = memberHashId p.2.ref_id p.2.maps_type := by
          conv_lhs => rw [hrole]
          rfl
        refine ⟨p.2, hkind, ?_, ?_⟩
        · rw [← hbind]
          exact hid
        · rw [← hbind]
          exact memberBindRow_target p.1 p.2 hkind
    obtain ⟨m₁, hk₁, hid₁, ht₁⟩ := hprop r₁ hr₁
    obtain ⟨m₂, hk₂, hid₂, ht₂⟩ := hprop r₂ hr₂
    rw [ht₁, ht₂] at htgt
    have hstr : m₁.maps_type.as_str = m₂.maps_type.as_str :=
      congrArg Prod.snd htgt
    have hmt : m₁.maps_type = m₂.maps_type := as_str_inj hk₁ hk₂ hstr
    have href : m₁.ref_id = m₂.ref_id := by
      have := congrArg Prod.fst htgt
      simpa using this
    have hid : r₁.id = r₂.id := by
      rw [hid₁, hid₂, hmt, href]
    exact List.inj_on_of_nodup_map hnd hr₁ hr₂ hid

/-- Witness for C9: two equal-target members with different roles share an
id, and the uniqueness conclusion holds for a concrete two-member load. -/
theorem C9_member_id_collision_witness :
    (Member.new 5 .node "x").id = (Member.new 5 .node "y").id
    ∧ ∀ r₁ ∈ [((1 : Int), Member.new 5 .node "a"),
        ((2 : Int), Member.new 7 .way "b")].foldl
          (fun t p => insertMemberIgnore t (memberBindRow p.1 p.2)) [],
      ∀ r₂ ∈ [((1 : Int), Member.new 5 .node "a"),
        ((2 : Int), Member.new 7 .way "b")].foldl
          (fun t p => insertMemberIgnore t (memberBindRow p.1 p.2)) [],
        memberRowTarget r₁ = memberRowTarget r₂ → r₁ = r₂ :=
  ⟨C9_member_id_collision.1 5 .node "x" "y",
   C9_member_id_collision.2
     [((1 : Int), Member.new 5 .node "a"), ((2 : Int), Member.new 7 .way "b")]
     (by
       intro p hp
       rcases List.mem_cons.mp hp with h | h
       · exact ⟨"a", by subst h; rfl⟩
       · have h2 : p = ((2 : Int), Member.new 7 .way "b") := by simpa using h
         exact ⟨"b", by subst h2; rfl⟩)⟩

/-! ## String-level split/join bridge lemmas -/

theorem colonData : (":" : String).data = [':'] := rfl

theorem commaData : ("," : String).data = [','] := rfl

theorem splitnStr_two (k v : String) (hk : sepFreeStr ':' k) :
    splitnStr ':' 2 (k ++ ":" ++ v) = [k, v] := by
  unfold splitnStr
  have hdata : (k ++ ":" ++ v).data = k.data ++ ':' :: v.data := by
    simp [String.data_append, colonData]
  rw [hdata]
  rw [show (2 : Nat) = 0 + 2 from rfl, splitnChars_append ':' 0 v.data hk]
  rfl

theorem splitnStr_six (a b c d e f : String)
    (ha : sepFreeStr ':' a) (hb : sepFreeStr ':' b) (hc : sepFreeStr ':' c)
    (hd : sepFreeStr ':' d) (he : sepFreeStr ':' e) :
    splitnStr ':' 6 (a ++ ":" ++ b ++ ":" ++ c ++ ":" ++ d ++ ":" ++ e ++ ":" ++ f)
      = [a, b, c, d, e, f] := by
  unfold splitnStr
  have hdata : (a ++ ":" ++ b ++ ":" ++ c ++ ":" ++ d ++ ":" ++ e ++ ":" ++ f).data
      = a.data ++ ':' :: (b.data ++ ':' :: (c.data ++ ':' :: (d.data
        ++ ':' :: (e.data ++ ':' :: f.data)))) := by
    simp [String.data_append, colonData]
  rw [hdata]
  rw [show (6 : Nat) = 4 + 2 from rfl, splitnChars_append ':' 4 _ ha]
  rw [show (4 + 1 : Nat) = 3 + 2 from rfl, splitnChars_append ':' 3 _ hb]
  rw [show (3 + 1 : Nat) = 2 + 2 from rfl, splitnChars_append ':' 2 _ hc]
  rw [show (2 + 1 : Nat) = 1 + 2 from rfl, splitnChars_append ':' 1 _ hd]
  rw [show (1 + 1 : Nat) = 0 + 2 from rfl, splitnChars_append ':' 0 _ he]
  rfl

theorem joinSep_data (cells : List String) :
    (joinSep "," cells).data = joinChars ',' (cells.map String.data) := by
  induction cells with
  | nil => rfl
  | cons x xs ih =>
    cases xs with
    | nil => rfl
    | cons y ys =>
      show (x ++ "," ++ joinSep "," (y :: ys)).data
        = x.data ++ ',' :: joinChars ',' ((y :: ys).map String.data)
      rw [← ih]
      simp [String.data_append, commaData]

theorem splitStr_joinSep (cells : List String) (hne : cells ≠ [])
    (hfree : ∀ c ∈ cells, sepFreeStr ',' c) :
    splitStr ',' (joinSep "," cells) = cells := by
  unfold splitStr
  rw [joinSep_data, splitChars_joinChars ',' (cells.map String.data)
    (by simpa using hne)
    (by intro c hc
        obtain ⟨x, hx, hxd⟩ := List.mem_map.mp hc
        exact hxd ▸ hfree x hx)]
  rw [List.map_map]
  have hid : (String.mk ∘ String.data) = id := funext (fun s => rfl)
  rw [hid, List.map_id]

theorem filterMap_map_id (l : List α) (f : α → β) (g : β → Option α)
    (h : ∀ a ∈ l, g (f a) = some a) : (l.map f).filterMap g = l := by
  induction l with
  | nil => rfl
  | cons a l ih =>
    rw [List.map_cons, List.filterMap_cons, h a (by simp)]
    rw [ih (fun x hx => h x (by simp [hx]))]

/-- C8: The inner split of a fetched tag cell takes at most 2 parts, the
first colon ending the key and everything after it (further colons
included) being the value; the member-cell split takes its 6 fixed
positions, the sixth (role) keeping any colon it contains. -/
theorem C8_bounded_inner_split :
    (∀ s : String, (splitnStr ':' 2 s).length ≤ 2)
    ∧ (∀ k v : String, sepFreeStr ':' k →
        decodeTagCellRel (k ++ ":" ++ v) = some ⟨k, v⟩)
    ∧ (∀ s : String, (splitnStr ':' 6 s).length ≤ 6)
    ∧ (∀ a b c d e f : String,
        sepFreeStr ':' a → sepFreeStr ':' b → sepFreeStr ':' c →
        sepFreeStr ':' d → sepFreeStr ':' e →
        splitnStr ':' 6 (a ++ ":" ++ b ++ ":" ++ c ++ ":" ++ d ++ ":"
          ++ e ++ ":" ++ f) = [a, b, c, d, e, f]) := by
  refine ⟨?_, ?_, ?_, ?_⟩
  · intro s
    unfold splitnStr
    rw [List.length_map]
    exact splitnChars_length ':' 2 s.data (by omega)
  · intro k v hk
    unfold decodeTagCellRel
    rw [splitnStr_two k v hk]
  · intro s
    unfold splitnStr
    rw [List.length_map]
    exact splitnChars_length ':' 6 s.data (by omega)
  · intro a b c d e f ha hb hc hd he
    exact splitnStr_six a b c d e f ha hb hc hd he

/-- Witness for C8 at concrete cells, with a colon inside the tag value
and inside the member role. -/
theorem C8_bounded_inner_split_witness :
    (splitnStr ':' 2 "k:a:b").length ≤ 2
    ∧ decodeTagCellRel ("k" ++ ":" ++ "a:b") = some ⟨"k", "a:b"⟩
    ∧ (splitnStr ':' 6 "1:2:3:4:5:6:7").length ≤ 6
    ∧ splitnStr ':' 6 ("12" ++ ":" ++ "5" ++ ":" ++ "" ++ ":" ++ ""
        ++ ":" ++ "node" ++ ":" ++ "a:b")
      = ["12", "5", "", "", "node", "a:b"] :=
  ⟨C8_bounded_inner_split.1 "k:a:b",
   C8_bounded_inner_split.2.1 "k" "a:b" (by decide),
   C8_bounded_inner_split.2.2.1 "1:2:3:4:5:6:7",
   C8_bounded_inner_split.2.2.2 "12" "5" "" "" "node" "a:b"
     (by decide) (by decide) (by decide) (by decide) (by decide)⟩

/-! ## Member cell decode lemmas (one per target kind) -/

theorem decodeMemberCell_node (idv refv : Int) (s₁ s₂ role : String)
    (hid : inI64 idv) (href : inI64 refv)
    (h₁ : sepFreeStr ':' s₁) (h₂ : sepFreeStr ':' s₂) :
    decodeMemberCell (intToDecString idv ++ ":" ++ intToDecString refv
        ++ ":" ++ s₁ ++ ":" ++ s₂ ++ ":" ++ "node" ++ ":" ++ role)
      = some ⟨idv, refv, .node, role⟩ := by
  have hidc := @intToDecString_sepFree ':' (by decide) (by decide) idv
  have hrefc := @intToDecString_sepFree ':' (by decide) (by decide) refv
  unfold decodeMemberCell
  rw [splitnStr_six _ _ _ _ _ _ hidc hrefc h₁ h₂ (by decide)]
  simp [parseI64_intToDec hid, parseI64_intToDec href, MapsType.fromStr]

theorem decodeMemberCell_way (idv refv : Int) (s₁ s₂ role : String)
    (hid : inI64 idv) (href : inI64 refv)
    (h₁ : sepFreeStr ':' s₁) (h₂ : sepFreeStr ':' s₂) :
    decodeMemberCell (intToDecString idv ++ ":" ++ s₁ ++ ":"
        ++ intToDecString refv ++ ":" ++ s₂ ++ ":" ++ "way" ++ ":" ++ role)
      = some ⟨idv, refv, .way, role⟩ := by
  have hidc := @intToDecString_sepFree ':' (by decide) (by decide) idv
  have hrefc := @intToDecString_sepFree ':' (by decide) (by decide) refv
  unfold decodeMemberCell
  rw [splitnStr_six _ _ _ _ _ _ hidc h₁ hrefc h₂ (by decide)]
  simp [parseI64_intToDec hid, parseI64_intToDec href, MapsType.fromStr]

theorem decodeMemberCell_relation (idv refv : Int) (s₁ s₂ role : String)
    (hid : inI64 idv) (href : inI64 refv)
    (h₁ : sepFreeStr ':' s₁) (h₂ : sepFreeStr ':' s₂) :
    decodeMemberCell (intToDecString idv ++ ":" ++ s₁ ++ ":" ++ s₂ ++ ":"
        ++ intToDecString refv ++ ":" ++ "relation" ++ ":" ++ role)
      = some ⟨idv, refv, .relation, role⟩ := by
  have hidc := @intToDecString_sepFree ':' (by decide) (by decide) idv
  have hrefc := @intToDecString_sepFree ':' (by decide) (by decide) refv
  unfold decodeMemberCell
  rw [splitnStr_six _ _ _ _ _ _ hidc h₁ h₂ hrefc (by decide)]
  simp [parseI64_intToDec hid, parseI64_intToDec href, MapsType.fromStr]

/-- C6: Member polymorphic target. Insert side: the member row bound by
insert_relation_data for a Way member has node_id and relation_ref_id NULL
and way_id equal to the member's ref_id, and symmetrically for Node and
Relation members. Decode side: a member cell whose kind token is way
decodes to a Member with maps_type Way and ref_id taken from the way_id
slot, the other two foreign-key slots being ignored (they may hold
arbitrary colon-free text), and vice versa for the other two kinds. -/
theorem C6_member_polymorphic_target :
    (∀ (relid : Int) (m : Member),
      (m.maps_type = .node → memberBindRow relid m
        = ⟨m.id, relid, some m.ref_id, none, none, "node", m.role⟩)
      ∧ (m.maps_type = .way → memberBindRow relid m
        = ⟨m.id, relid, none, some m.ref_id, none, "way", m.role⟩)
      ∧ (m.maps_type = .relation → memberBindRow relid m
        = ⟨m.id, relid, none, none, some m.ref_id, "relation", m.role⟩))
    ∧ (∀ (idv refv : Int) (s₁ s₂ role : String),
        inI64 idv → inI64 refv → sepFreeStr ':' s₁ → sepFreeStr ':' s₂ →
        decodeMemberCell (intToDecString idv ++ ":" ++ s₁ ++ ":"
            ++ intToDecString refv ++ ":" ++ s₂ ++ ":" ++ "way" ++ ":" ++ role)
          = some ⟨idv, refv, .way, role⟩
        ∧ decodeMemberCell (intToDecString idv ++ ":" ++ intToDecString refv
            ++ ":" ++ s₁ ++ ":" ++ s₂ ++ ":" ++ "node" ++ ":" ++ role)
          = some ⟨idv, refv, .node, role⟩
        ∧ decodeMemberCell (intToDecString idv ++ ":" ++ s₁ ++ ":" ++ s₂
            ++ ":" ++ intToDecString refv ++ ":" ++ "relation" ++ ":" ++ role)
          = some ⟨idv, refv, .relation, role⟩) := by
  constructor
  · intro relid m
    refine ⟨fun h => ?_, fun h => ?_, fun h => ?_⟩ <;>
      simp [memberBindRow, h, MapsType.as_str]
  · intro idv refv s₁ s₂ role hid href h₁ h₂
    exact ⟨decodeMemberCell_way idv refv s₁ s₂ role hid href h₁ h₂,
      decodeMemberCell_node idv refv s₁ s₂ role hid href h₁ h₂,
      decodeMemberCell_relation idv refv s₁ s₂ role hid href h₁ h₂⟩

/-- Witness for C6 at a concrete member and concrete cells. -/
theorem C6_member_polymorphic_target_witness :
    memberBindRow 3 ⟨11, 9, .way, "outer"⟩
      = ⟨11, 3, none, some 9, none, "way", "outer"⟩
    ∧ decodeMemberCell ("11:junk:9::" ++ "way" ++ ":outer")
      = some ⟨11, 9, .way, "outer"⟩ := by
  constructor
  · exact ((C6_member_polymorphic_target.1 3 ⟨11, 9, .way, "outer"⟩).2.1) rfl
  · have h := ((C6_member_polymorphic_target.2 11 9 "junk" "" "outer"
      (by decide) (by decide) (by decide) (by decide))).1
    have hcell : (intToDecString 11 ++ ":" ++ "junk" ++ ":"
        ++ intToDecString 9 ++ ":" ++ "" ++ ":" ++ "way" ++ ":" ++ "outer")
        = ("11:junk:9::" ++ "way" ++ ":outer") := by decide
    rw [hcell] at h
    exact h

/-! ## C1: round-trip hygiene conditions and decode lemmas -/

theorem sepFreeStr_append {sep : Char} {a b : String} :
    sepFreeStr sep (a ++ b) ↔ sepFreeStr sep a ∧ sepFreeStr sep b := by
  simp [sepFreeStr, sepFree, String.data_append, not_or]

/-- A tag that survives the store round trip intact: nonempty key and
value (Node::from_row drops empties), the key free of the inner delimiter,
key and value free of the outer delimiter. -/
def TagOk (t : Tag) : Prop :=
  t.key ≠ "" ∧ t.value ≠ "" ∧ sepFreeStr ':' t.key
    ∧ sepFreeStr ',' t.key ∧ sepFreeStr ',' t.value

instance (t : Tag) : Decidable (TagOk t) := by
  unfold TagOk; infer_instance

/-- A member that survives the round trip: a storable kind, a role free of
the outer delimiter, id and target id in i64 range (they travel through
decimal text). -/
def MemberOk (m : Member) : Prop :=
  knownKind m.maps_type ∧ sepFreeStr ',' m.role ∧ inI64 m.id ∧ inI64 m.ref_id

instance (m : Member) : Decidable (MemberOk m) := by
  unfold MemberOk; infer_instance

theorem tagCell_commaFree {t : Tag} (h : TagOk t) :
    sepFreeStr ',' (t.key ++ ":" ++ t.value) := by
  refine sepFreeStr_append.mpr ⟨sepFreeStr_append.mpr ⟨h.2.2.2.1, ?_⟩, h.2.2.2.2⟩
  decide

theorem decodeTagCellNode_round (t : Tag) (h : TagOk t) :
    decodeTagCellNode (t.key ++ ":" ++ t.value) = some t := by
  unfold decodeTagCellNode
  rw [splitnStr_two _ _ h.2.2.1]
  show (if t.key = "" ∨ t.value = "" then none
    else some (⟨t.key, t.value⟩ : Tag)) = some t
  rw [if_neg (by push_neg; exact ⟨h.1, h.2.1⟩)]

theorem decodeTagCellRel_round (t : Tag) (h : TagOk t) :
    decodeTagCellRel (t.key ++ ":" ++ t.value) = some t := by
  unfold decodeTagCellRel
  rw [splitnStr_two _ _ h.2.2.1]

theorem decodeTagsNode_round (ts : List Tag) (h : ∀ t ∈ ts, TagOk t) :
    decodeTagsNode (groupConcat (ts.map (fun t => t.key ++ ":" ++ t.value)))
      = ts := by
  cases ts with
  | nil => rfl
  | cons t₀ rest =>
    have hfree : ∀ c ∈ (t₀ :: rest).map (fun t => t.key ++ ":" ++ t.value),
        sepFreeStr ',' c := by
      intro c hc
      obtain ⟨t, ht, hcell⟩ := List.mem_map.mp hc
      exact hcell ▸ tagCell_commaFree (h t ht)
    show ((splitStr ','
      (joinSep "," ((t₀ :: rest).map (fun t => t.key ++ ":" ++ t.value)))).filterMap
        decodeTagCellNode) = t₀ :: rest
    rw [splitStr_joinSep _ (by simp) hfree]
    exact filterMap_map_id _ _ _ (fun t ht => decodeTagCellNode_round t (h t ht))

theorem decodeTagsRel_round (ts : List Tag) (h : ∀ t ∈ ts, TagOk t) :
    decodeTagsRel (groupConcat (ts.map (fun t => t.key ++ ":" ++ t.value)))
      = ts := by
  cases ts with
  | nil => rfl
  | cons t₀ rest =>
    have hfree : ∀ c ∈ (t₀ :: rest).map (fun t => t.key ++ ":" ++ t.value),
        sepFreeStr ',' c := by
      intro c hc
      obtain ⟨t, ht, hcell⟩ := List.mem_map.mp hc
      exact hcell ▸ tagCell_commaFree (h t ht)
    show ((splitStr ','
      (joinSep "," ((t₀ :: rest).map (fun t => t.key ++ ":" ++ t.value)))).filterMap
        decodeTagCellRel) = t₀ :: rest
    rw [splitStr_joinSep _ (by simp) hfree]
    exact filterMap_map_id _ _ _ (fun t ht => decodeTagCellRel_round t (h t ht))

theorem decodeWayRefs_round (refs : List Int) (h : ∀ r ∈ refs, inI64 r) :
    decodeWayRefs (groupConcat (refs.map intToDecString)) = refs := by
  cases refs with
  | nil => rfl
  | cons r₀ rest =>
    have hfree : ∀ c ∈ (r₀ :: rest).map intToDecString, sepFreeStr ',' c := by
      intro c hc
      obtain ⟨r, _, hcell⟩ := List.mem_map.mp hc
      exact hcell ▸ intToDecString_sepFree (by decide) (by decide) r
    show ((splitStr ','
      (joinSep "," ((r₀ :: rest).map intToDecString))).filterMap parseI64)
        = r₀ :: rest
    rw [splitStr_joinSep _ (by simp) hfree]
    exact filterMap_map_id _ _ _ (fun r hr => parseI64_intToDec (h r hr))

theorem memberCell_bindRow_commaFree (relid : Int) (m : Member)
    (h : MemberOk m) :
    sepFreeStr ',' (memberCell (memberBindRow relid m)) := by
  obtain ⟨hkind, hrole, hid, href⟩ := h
  obtain ⟨mid, mref, mt, mrole⟩ := m
  have hidf := @intToDecString_sepFree ',' (by decide) (by decide)
  have hcolon : sepFreeStr ',' ":" := by decide
  have hempty : sepFreeStr ',' "" := by decide
  have hknode : sepFreeStr ',' "node" := by decide
  have hkway : sepFreeStr ',' "way" := by decide
  have hkrel : sepFreeStr ',' "relation" := by decide
  rcases hkind with hk | hk | hk <;> subst hk <;>
    simp [memberCell, memberBindRow, ifnullInt, MapsType.as_str,
      sepFreeStr_append, hidf mid, hidf mref, hrole, hcolon, hempty,
      hknode, hkway, hkrel]

theorem decodeMemberCell_bindRow (relid : Int) (m : Member) (h : MemberOk m) :
    decodeMemberCell (memberCell (memberBindRow relid m)) = some m := by
  obtain ⟨hkind, hrole, hid, href⟩ := h
  obtain ⟨mid, mref, mt, mrole⟩ := m
  rcases hkind with hk | hk | hk <;> subst hk
  · have := decodeMemberCell_node mid mref "" "" mrole hid href
      (by decide) (by decide)
    simpa [memberCell, memberBindRow, ifnullInt, MapsType.as_str] using this
  · have := decodeMemberCell_way mid mref "" "" mrole hid href
      (by decide) (by decide)
    simpa [memberCell, memberBindRow, ifnullInt, MapsType.as_str] using this
  · have := decodeMemberCell_relation mid mref "" "" mrole hid href
      (by decide) (by decide)
    simpa [memberCell, memberBindRow, ifnullInt, MapsType.as_str] using this

theorem decodeMembers_round (relid : Int) (ms : List Member)
    (h : ∀ m ∈ ms, MemberOk m) :
    decodeMembers (groupConcat
      (ms.map (fun m => memberCell (memberBindRow relid m)))) = ms := by
  cases ms with
  | nil => rfl
  | cons m₀ rest =>
    have hfree : ∀ c ∈ (m₀ :: rest).map (fun m => memberCell (memberBindRow relid m)),
        sepFreeStr ',' c := by
      intro c hc
      obtain ⟨m, hm, hcell⟩ := List.mem_map.mp hc
      exact hcell ▸ memberCell_bindRow_commaFree relid m (h m hm)
    show ((splitStr ',' (joinSep ","
      ((m₀ :: rest).map (fun m => memberCell (memberBindRow relid m))))).filterMap
        decodeMemberCell) = m₀ :: rest
    rw [splitStr_joinSep _ (by simp) hfree]
    exact filterMap_map_id _ _ _
      (fun m hm => decodeMemberCell_bindRow relid m (h m hm))

/-! ## Keyed flatten lemmas: child-row tables of distinct parents -/

theorem nodup_flatten_child_keys {α β κ : Type} [DecidableEq κ]
    (parents : List α) (pid : α → Int) (children : α → List β) (ckey : β → κ)
    (hp : (parents.map pid).Nodup)
    (hc : ∀ a ∈ parents, ((children a).map ckey).Nodup) :
    ((parents.map (fun a =>
      (children a).map (fun b => ((pid a, ckey b) : Int × κ)))).flatten).Nodup := by
  induction parents with
  | nil => simp
  | cons a ps ih =>
    rw [List.map_cons, List.flatten_cons]
    rw [List.map_cons] at hp
    have hpa := (List.nodup_cons.mp hp).1
    have hps := (List.nodup_cons.mp hp).2
    apply List.Nodup.append
    · have : (children a).map (fun b => ((pid a, ckey b) : Int × κ))
          = ((children a).map ckey).map (fun k => ((pid a, k) : Int × κ)) := by
        rw [List.map_map]
        rfl
      rw [this]
      exact (hc a (by simp)).map (fun x y hxy => by
        simpa using congrArg Prod.snd hxy)
    · exact ih hps (fun x hx => hc x (by simp [hx]))
    · intro x hx hy
      obtain ⟨b, _, hxb⟩ := List.mem_map.mp hx
      obtain ⟨l, hl, hxl⟩ := List.mem_flatten.mp hy
      obtain ⟨p, hpmem, hlp⟩ := List.mem_map.mp hl
      subst hlp
      obtain ⟨b2, _, hxb2⟩ := List.mem_map.mp hxl
      have h1 : x.1 = pid a := by rw [← hxb]
      have h2 : x.1 = pid p := by rw [← hxb2]
      exact hpa (h1 ▸ h2 ▸ List.mem_map_of_mem pid hpmem)

theorem filter_flatten_keyed {α ρ : Type} (parents : List α) (pid : α → Int)
    (rows : α → List ρ) (rpid : ρ → Int)
    (hp : (parents.map pid).Nodup)
    (hr : ∀ a ∈ parents, ∀ r ∈ rows a, rpid r = pid a) :
    ∀ a ∈ parents,
      ((parents.map rows).flatten).filter (fun r => rpid r == pid a) = rows a := by
  induction parents with
  | nil => intro a ha; simp at ha
  | cons p ps ih =>
    intro a ha
    rw [List.map_cons, List.flatten_cons, List.filter_append]
    rw [List.map_cons] at hp
    have hpp := (List.nodup_cons.mp hp).1
    have hps := (List.nodup_cons.mp hp).2
    rcases List.mem_cons.mp ha with h | h
    · subst h
      have hkeep : (rows a).filter (fun r => rpid r == pid a) = rows a :=
        List.filter_eq_self.mpr (fun r hrr => by
          simp [hr a (by simp) r hrr])
      have hdrop : ((ps.map rows).flatten).filter (fun r => rpid r == pid a)
          = [] := by
        apply List.filter_eq_nil_iff.mpr
        intro r hrr
        obtain ⟨l, hl, hrl⟩ := List.mem_flatten.mp hrr
        obtain ⟨q, hq, hlq⟩ := List.mem_map.mp hl
        subst hlq
        have : rpid r = pid q := hr q (by simp [hq]) r hrl
        simp only [this, beq_iff_eq]
        intro hpq
        exact hpp (hpq ▸ List.mem_map_of_mem pid hq)
      rw [hkeep, hdrop, List.append_nil]
    · have hdrophead : (rows p).filter (fun r => rpid r == pid a) = [] := by
        apply List.filter_eq_nil_iff.mpr
        intro r hrr
        have : rpid r = pid p := hr p (by simp) r hrr
        simp only [this, beq_iff_eq]
        intro hpq
        exact hpp (hpq ▸ List.mem_map_of_mem pid h)
      rw [hdrophead, List.nil_append]
      exact ih hps (fun x hx => hr x (by simp [hx])) a h

theorem foldl_insertIgnore_nil {ρ κ : Type} (key : ρ → κ) [DecidableEq κ]
    (rows : List ρ) (hnd : (rows.map key).Nodup) :
    rows.foldl (insertIgnore key) [] = rows := by
  rw [foldl_insertIgnore_fresh key rows []
    (fun r _ h => by obtain ⟨x, hx, _⟩ := h; simp at hx) hnd]
  rfl

theorem foldl_insertMember_nil (rows : List MemberRow)
    (hchk : ∀ r ∈ rows, memberRowCheck r)
    (hnd : (rows.map MemberRow.id).Nodup) :
    rows.foldl insertMemberIgnore [] = rows := by
  rw [foldl_insertMember_fresh rows [] hchk
    (fun r _ h => by obtain ⟨x, hx, _⟩ := h; simp at hx) hnd]
  rfl

theorem flatten_map_comm {α β ρ κ : Type} (l : List α) (g : α → List β)
    (mk : α → β → ρ) (key : ρ → κ) :
    ((l.map (fun a => (g a).map (mk a))).flatten).map key
      = (l.map (fun a => (g a).map (fun b => key (mk a b)))).flatten := by
  induction l with
  | nil => rfl
  | cons a l ih =>
    simp only [List.map_cons, List.flatten_cons, List.map_append, List.map_map]
    rw [ih]
    rfl

/-- A way that survives the round trip: distinct in-range node refs and
round-trip-safe tags with distinct keys. -/
def WayOk (w : Way) : Prop :=
  w.node_refs.Nodup ∧ (∀ r ∈ w.node_refs, inI64 r)
    ∧ (∀ t ∈ w.tags, TagOk t) ∧ (w.tags.map Tag.key).Nodup

instance (w : Way) : Decidable (WayOk w) := by
  unfold WayOk; infer_instance

/-- Hygiene of a whole collection: pairwise distinct ids per entity kind
(the claim's premise), round-trip-safe tags with per-entity distinct keys,
round-trip-safe ways and members, and globally distinct synthetic member
ids. -/
def CollectionOk (ns : List Node) (ws : List Way) (rs : List Relation) : Prop :=
  (ns.map Node.id).Nodup ∧ (ws.map Way.id).Nodup ∧ (rs.map Relation.id).Nodup
    ∧ (∀ n ∈ ns, (∀ t ∈ n.tags, TagOk t) ∧ (n.tags.map Tag.key).Nodup)
    ∧ (∀ w ∈ ws, WayOk w)
    ∧ (∀ r ∈ rs, (∀ t ∈ r.tags, TagOk t) ∧ (r.tags.map Tag.key).Nodup
        ∧ ∀ m ∈ r.members, MemberOk m)
    ∧ ((rs.map (fun r => r.members.map Member.id)).flatten).Nodup

instance (ns : List Node) (ws : List Way) (rs : List Relation) :
    Decidable (CollectionOk ns ws rs) := by
  unfold CollectionOk; infer_instance

theorem nodeTagRows_keys_nodup (ns : List Node)
    (hids : (ns.map Node.id).Nodup)
    (htags : ∀ n ∈ ns, (n.tags.map Tag.key).Nodup) :
    ((nodeTagRows ns).map tagRowKey).Nodup := by
  unfold nodeTagRows
  rw [flatten_map_comm ns (fun n => n.tags)
    (fun n t => TagRow.mk n.id t.key t.value) tagRowKey]
  exact nodup_flatten_child_keys ns Node.id (fun n => n.tags) Tag.key hids htags

theorem wayTagRows_keys_nodup (ws : List Way)
    (hids : (ws.map Way.id).Nodup)
    (htags : ∀ w ∈ ws, (w.tags.map Tag.key).Nodup) :
    ((wayTagRows ws).map tagRowKey).Nodup := by
  unfold wayTagRows
  rw [flatten_map_comm ws (fun w => w.tags)
    (fun w t => TagRow.mk w.id t.key t.value) tagRowKey]
  exact nodup_flatten_child_keys ws Way.id (fun w => w.tags) Tag.key hids htags

theorem relationTagRows_keys_nodup (rs : List Relation)
    (hids : (rs.map Relation.id).Nodup)
    (htags : ∀ r ∈ rs, (r.tags.map Tag.key).Nodup) :
    ((relationTagRows rs).map tagRowKey).Nodup := by
  unfold relationTagRows
  rw [flatten_map_comm rs (fun r => r.tags)
    (fun r t => TagRow.mk r.id t.key t.value) tagRowKey]
  exact nodup_flatten_child_keys rs Relation.id (fun r => r.tags) Tag.key
    hids htags

theorem wayNodeRows_flatten (ws : List Way) :
    wayNodeRows ws
      = (ws.map (fun w => w.node_refs.map (fun r => WayNodeRow.mk w.id r))).flatten := by
  unfold wayNodeRows Way.extract_way_node_refs
  rw [flatten_map_comm ws (fun w => w.node_refs) (fun w r => (w.id, r))
    (fun p => WayNodeRow.mk p.1 p.2)]

theorem wayNodeRows_keys_nodup (ws : List Way)
    (hids : (ws.map Way.id).Nodup)
    (hrefs : ∀ w ∈ ws, w.node_refs.Nodup) :
    ((wayNodeRows ws).map wayNodeKey).Nodup := by
  rw [wayNodeRows_flatten]
  rw [flatten_map_comm ws (fun w => w.node_refs)
    (fun w r => WayNodeRow.mk w.id r) wayNodeKey]
  exact nodup_flatten_child_keys ws Way.id (fun w => w.node_refs) id hids
    (fun w hw => by simpa using hrefs w hw)

theorem memberRowsOf_flatten (rs : List Relation) :
    memberRowsOf rs
      = (rs.map (fun r => r.members.map (fun m => memberBindRow r.id m))).flatten := by
  unfold memberRowsOf Relation.extract_members
  rw [flatten_map_comm rs (fun r => r.members) (fun r m => (r.id, m))
    (fun p => memberBindRow p.1 p.2)]

theorem memberRowsOf_ids_nodup (rs : List Relation)
    (hnd : ((rs.map (fun r => r.members.map Member.id)).flatten).Nodup) :
    ((memberRowsOf rs).map MemberRow.id).Nodup := by
  rw [memberRowsOf_flatten]
  rw [flatten_map_comm rs (fun r => r.members)
    (fun r m => memberBindRow r.id m) MemberRow.id]
  exact hnd

theorem memberRowsOf_check (rs : List Relation)
    (h : ∀ r ∈ rs, ∀ m ∈ r.members, MemberOk m) :
    ∀ row ∈ memberRowsOf rs, memberRowCheck row := by
  intro row hrow
  rw [memberRowsOf_flatten] at hrow
  obtain ⟨l, hl, hrl⟩ := List.mem_flatten.mp hrow
  obtain ⟨r, hr, hlr⟩ := List.mem_map.mp hl
  subst hlr
  obtain ⟨m, hm, hbm⟩ := List.mem_map.mp hrl
  subst hbm
  exact (memberBindRow_check r.id m).mpr (h r hr m hm).1

theorem loadAll_tables (ns : List Node) (ws : List Way) (rs : List Relation)
    (h : CollectionOk ns ws rs) :
    loadAll emptyStore ns ws rs =
      { node := ns.map nodeRowOf
        node_tags := nodeTagRows ns
        way := ws.map wayRowOf
        way_nodes := wayNodeRows ws
        way_tags := wayTagRows ws
        relation := rs.map relationRowOf
        member := memberRowsOf rs
        relation_tags := relationTagRows rs } := by
  obtain ⟨hnid, hwid, hrid, hntags, hways, hrels, hmids⟩ := h
  have hN : ((ns.map nodeRowOf).map NodeRow.id).Nodup := by
    rw [List.map_map]
    exact hnid
  have hW : ((ws.map wayRowOf).map WayRow.id).Nodup := by
    rw [List.map_map]
    exact hwid
  have hR : ((rs.map relationRowOf).map RelationRow.id).Nodup := by
    rw [List.map_map]
    exact hrid
  have e1 := foldl_insertIgnore_nil NodeRow.id (ns.map nodeRowOf) hN
  have e2 := foldl_insertIgnore_nil tagRowKey (nodeTagRows ns)
    (nodeTagRows_keys_nodup ns hnid (fun n hn => (hntags n hn).2))
  have e3 := foldl_insertIgnore_nil WayRow.id (ws.map wayRowOf) hW
  have e4 := foldl_insertIgnore_nil wayNodeKey (wayNodeRows ws)
    (wayNodeRows_keys_nodup ws hwid (fun w hw => (hways w hw).1))
  have e5 := foldl_insertIgnore_nil tagRowKey (wayTagRows ws)
    (wayTagRows_keys_nodup ws hwid (fun w hw => (hways w hw).2.2.2))
  have e6 := foldl_insertIgnore_nil RelationRow.id (rs.map relationRowOf) hR
  have e7 := foldl_insertMember_nil (memberRowsOf rs)
    (memberRowsOf_check rs (fun r hr => (hrels r hr).2.2))
    (memberRowsOf_ids_nodup rs hmids)
  have e8 := foldl_insertIgnore_nil tagRowKey (relationTagRows rs)
    (relationTagRows_keys_nodup rs hrid (fun r hr => (hrels r hr).2.1))
  rw [loadAll_eq]
  simp only [emptyStore]
  rw [e1, e2, e3, e4, e5, e6, e7, e8]

theorem fetch_nodes_round (ns : List Node) (ws : List Way) (rs : List Relation)
    (hnid : (ns.map Node.id).Nodup)
    (htags : ∀ n ∈ ns, (∀ t ∈ n.tags, TagOk t)) :
    fetch_all_nodes_and_tags
      { node := ns.map nodeRowOf
        node_tags := nodeTagRows ns
        way := ws.map wayRowOf
        way_nodes := wayNodeRows ws
        way_tags := wayTagRows ws
        relation := rs.map relationRowOf
        member := memberRowsOf rs
        relation_tags := relationTagRows rs } = ns := by
  unfold fetch_all_nodes_and_tags
  rw [List.map_map]
  have hpoint : ∀ n ∈ ns,
      ({ id := (nodeRowOf n).id, lat := (nodeRowOf n).lat
         lon := (nodeRowOf n).lon, version := (nodeRowOf n).version
         timestamp := (nodeRowOf n).timestamp
         changeset := (nodeRowOf n).changeset, uid := (nodeRowOf n).uid
         user := (nodeRowOf n).user
         tags := decodeTagsNode (groupConcat
           (((nodeTagRows ns).filter
             (fun t => t.parent_id == (nodeRowOf n).id)).map tagCell)) } : Node)
        = n := by
    intro n hn
    have hfilter : (nodeTagRows ns).filter (fun t => t.parent_id == n.id)
        = n.tags.map (fun t => TagRow.mk n.id t.key t.value) := by
      unfold nodeTagRows
      exact filter_flatten_keyed ns Node.id
        (fun a => a.tags.map (fun t => TagRow.mk a.id t.key t.value))
        TagRow.parent_id hnid
        (fun a _ r hr => by
          obtain ⟨t, _, htr⟩ := List.mem_map.mp hr
          subst htr
          rfl)
        n hn
    rw [show (nodeRowOf n).id = n.id from rfl, hfilter, List.map_map]
    have hcells : n.tags.map (tagCell ∘ fun t => TagRow.mk n.id t.key t.value)
        = n.tags.map (fun t => t.key ++ ":" ++ t.value) := rfl
    rw [hcells, decodeTagsNode_round n.tags (htags n hn)]
    rfl
  calc ns.map ((fun r : NodeRow =>
        ({ id := r.id, lat := r.lat, lon := r.lon, version := r.version
           timestamp := r.timestamp, changeset := r.changeset, uid := r.uid
           user := r.user
           tags := decodeTagsNode (groupConcat
             (((nodeTagRows ns).filter
               (fun t => t.parent_id == r.id)).map tagCell)) } : Node))
        ∘ nodeRowOf)
      = ns.map id := List.map_congr_left (fun n hn => hpoint n hn)
    _ = ns := List.map_id ns

theorem fetch_ways_round (ns : List Node) (ws : List Way) (rs : List Relation)
    (hwid : (ws.map Way.id).Nodup)
    (hok : ∀ w ∈ ws, WayOk w) :
    fetch_all_ways_and_tags
      { node := ns.map nodeRowOf
        node_tags := nodeTagRows ns
        way := ws.map wayRowOf
        way_nodes := wayNodeRows ws
        way_tags := wayTagRows ws
        relation := rs.map relationRowOf
        member := memberRowsOf rs
        relation_tags := relationTagRows rs } = ws := by
  unfold fetch_all_ways_and_tags
  rw [List.map_map]
  have hpoint : ∀ w ∈ ws,
      ({ id := (wayRowOf w).id, version := (wayRowOf w).version
         timestamp := (wayRowOf w).timestamp
         changeset := (wayRowOf w).changeset, uid := (wayRowOf w).uid
         user := (wayRowOf w).user
         node_refs := decodeWayRefs (groupConcat
           (((wayNodeRows ws).filter
             (fun wn => wn.way_id == (wayRowOf w).id)).map
               (fun wn => intToDecString wn.ref_id)))
         tags := decodeTagsRel (groupConcat
           (((wayTagRows ws).filter
             (fun t => t.parent_id == (wayRowOf w).id)).map tagCell)) } : Way)
        = w := by
    intro w hw
    have hfilterN : (wayNodeRows ws).filter (fun wn => wn.way_id == w.id)
        = w.node_refs.map (fun r => WayNodeRow.mk w.id r) := by
      rw [wayNodeRows_flatten]
      exact filter_flatten_keyed ws Way.id
        (fun a => a.node_refs.map (fun r => WayNodeRow.mk a.id r))
        WayNodeRow.way_id hwid
        (fun a _ r hr => by
          obtain ⟨x, _, hxr⟩ := List.mem_map.mp hr
          subst hxr
          rfl)
        w hw
    have hfilterT : (wayTagRows ws).filter (fun t => t.parent_id == w.id)
        = w.tags.map (fun t => TagRow.mk w.id t.key t.value) := by
      unfold wayTagRows
      exact filter_flatten_keyed ws Way.id
        (fun a => a.tags.map (fun t => TagRow.mk a.id t.key t.value))
        TagRow.parent_id hwid
        (fun a _ r hr => by
          obtain ⟨t, _, htr⟩ := List.mem_map.mp hr
          subst htr
          rfl)
        w hw
    rw [show (wayRowOf w).id = w.id from rfl, hfilterN, hfilterT,
      List.map_map, List.map_map]
    have hrefCells : w.node_refs.map
        ((fun wn : WayNodeRow => intToDecString wn.ref_id)
          ∘ fun r => WayNodeRow.mk w.id r)
        = w.node_refs.map intToDecString := rfl
    have hcells : w.tags.map (tagCell ∘ fun t => TagRow.mk w.id t.key t.value)
        = w.tags.map (fun t => t.key ++ ":" ++ t.value) := rfl
    rw [hrefCells, hcells, decodeWayRefs_round w.node_refs (hok w hw).2.1,
      decodeTagsRel_round w.tags (hok w hw).2.2.1]
    rfl
  calc ws.map ((fun r : WayRow =>
        ({ id := r.id, version := r.version, timestamp := r.timestamp
           changeset := r.changeset, uid := r.uid, user := r.user
           node_refs := decodeWayRefs (groupConcat
             (((wayNodeRows ws).filter (fun wn => wn.way_id == r.id)).map
               (fun wn => intToDecString wn.ref_id)))
           tags := decodeTagsRel (groupConcat
             (((wayTagRows ws).filter
               (fun t => t.parent_id == r.id)).map tagCell)) } : Way))
        ∘ wayRowOf)
      = ws.map id := List.map_congr_left (fun w hw => hpoint w hw)
    _ = ws := List.map_id ws

theorem fetch_relations_round (ns : List Node) (ws : List Way)
    (rs : List Relation)
    (hrid : (rs.map Relation.id).Nodup)
    (hok : ∀ r ∈ rs, (∀ t ∈ r.tags, TagOk t) ∧ (r.tags.map Tag.key).Nodup
      ∧ ∀ m ∈ r.members, MemberOk m) :
    fetch_all_relations_and_tags
      { node := ns.map nodeRowOf
        node_tags := nodeTagRows ns
        way := ws.map wayRowOf
        way_nodes := wayNodeRows ws
        way_tags := wayTagRows ws
        relation := rs.map relationRowOf
        member := memberRowsOf rs
        relation_tags := relationTagRows rs } = rs := by
  unfold fetch_all_relations_and_tags
  rw [List.map_map]
  have hpoint : ∀ r ∈ rs,
      ({ id := (relationRowOf r).id, version := (relationRowOf r).version
         timestamp := (relationRowOf r).timestamp
         changeset := (relationRowOf r).changeset
         uid := (relationRowOf r).uid, user := (relationRowOf r).user
         members := decodeMembers (groupConcat
           (((memberRowsOf rs).filter
             (fun m => m.relation_id == (relationRowOf r).id)).map memberCell))
         tags := decodeTagsRel (groupConcat
           (((relationTagRows rs).filter
             (fun t => t.parent_id == (relationRowOf r).id)).map tagCell)) }
        : Relation) = r := by
    intro r hr
    have hfilterM : (memberRowsOf rs).filter (fun m => m.relation_id == r.id)
        = r.members.map (fun m => memberBindRow r.id m) := by
      rw [memberRowsOf_flatten]
      exact filter_flatten_keyed rs Relation.id
        (fun a => a.members.map (fun m => memberBindRow a.id m))
        MemberRow.relation_id hrid
        (fun a _ x hx => by
          obtain ⟨m, _, hmx⟩ := List.mem_map.mp hx
          subst hmx
          rfl)
        r hr
    have hfilterT : (relationTagRows rs).filter (fun t => t.parent_id == r.id)
        = r.tags.map (fun t => TagRow.mk r.id t.key t.value) := by
      unfold relationTagRows
      exact filter_flatten_keyed rs Relation.id
        (fun a => a.tags.map (fun t => TagRow.mk a.id t.key t.value))
        TagRow.parent_id hrid
        (fun a _ x hx => by
          obtain ⟨t, _, htx⟩ := List.mem_map.mp hx
          subst htx
          rfl)
        r hr
    rw [show (relationRowOf r).id = r.id from rfl, hfilterM, hfilterT,
      List.map_map, List.map_map]
    have hmCells : r.members.map (memberCell ∘ fun m => memberBindRow r.id m)
        = r.members.map (fun m => memberCell (memberBindRow r.id m)) := rfl
    have hcells : r.tags.map (tagCell ∘ fun t => TagRow.mk r.id t.key t.value)
        = r.tags.map (fun t => t.key ++ ":" ++ t.value) := rfl
    rw [hmCells, hcells, decodeMembers_round r.id r.members (hok r hr).2.2,
      decodeTagsRel_round r.tags (hok r hr).1]
    rfl
  calc rs.map ((fun x : RelationRow =>
        ({ id := x.id, version := x.version, timestamp := x.timestamp
           changeset := x.changeset, uid := x.uid, user := x.user
           members := decodeMembers (groupConcat
             (((memberRowsOf rs).filter
               (fun m => m.relation_id == x.id)).map memberCell))
           tags := decodeTagsRel (groupConcat
             (((relationTagRows rs).filter
               (fun t => t.parent_id == x.id)).map tagCell)) } : Relation))
        ∘ relationRowOf)
      = rs.map id := List.map_congr_left (fun r hr => hpoint r hr)
    _ = rs := List.map_id rs

/-- C1: round-trip through the store. As stated — only "no duplicate ids"
— the claim fails (see the counterexample: duplicate tag keys within one
entity are collapsed by the (parent, key) primary key of the tag tables).
Amended: for every collection whose entities have pairwise distinct ids
per kind, whose tags have non-empty colon-free comma-free keys and
comma-free values with distinct keys per entity, whose ways have distinct
in-range node_refs, and whose members have known kinds, comma-free roles,
in-range ids and globally distinct ids, inserting into an empty store and
fetching returns exactly the input collections (here even in exact order,
tags and members included, because the model aggregates in insertion
order). -/
theorem C1_roundtrip (ns : List Node) (ws : List Way) (rs : List Relation)
    (h : CollectionOk ns ws rs) :
    fetch_all_nodes_and_tags (loadAll emptyStore ns ws rs) = ns
      ∧ fetch_all_ways_and_tags (loadAll emptyStore ns ws rs) = ws
      ∧ fetch_all_relations_and_tags (loadAll emptyStore ns ws rs) = rs := by
  rw [loadAll_tables ns ws rs h]
  obtain ⟨hnid, hwid, hrid, hntags, hways, hrels, hmids⟩ := h
  exact ⟨fetch_nodes_round ns ws rs hnid (fun n hn => (hntags n hn).1),
    fetch_ways_round ns ws rs hwid hways,
    fetch_relations_round ns ws rs hrid hrels⟩

/-- A node with two tags sharing the key "k": ids are all distinct (the
claim's only premise), yet the fetch loses the second tag because
node_tags is keyed by (parent_id, key) under INSERT OR IGNORE. -/
def c1DupKeyNode : Node :=
  { id := 1, lat := F64.zero, lon := F64.zero, version := 1, timestamp := ""
    changeset := 0, uid := 0, user := ""
    tags := [⟨"k", "a"⟩, ⟨"k", "b"⟩] }

theorem C1_counterexample :
    fetch_all_nodes_and_tags (insert_node_data emptyStore [c1DupKeyNode])
      ≠ [c1DupKeyNode] := by decide

def c1Nodes : List Node :=
  [{ id := 1, lat := F64.zero, lon := F64.zero, version := 2
     timestamp := "ts", changeset := 3, uid := 4, user := "u"
     tags := [⟨"k", "v:w"⟩] }]

def c1Ways : List Way :=
  [{ id := 4, version := 1, timestamp := "", changeset := 0, uid := 0
     user := "", node_refs := [7, 3, 9], tags := [⟨"hw", "yes"⟩] }]

def c1Rels : List Relation :=
  [{ id := 6, version := 1, timestamp := "", changeset := 0, uid := 0
     user := ""
     members := [⟨11, 5, MapsType.node, "outer"⟩, ⟨12, 9, MapsType.way, ""⟩]
     tags := [⟨"type", "multipolygon"⟩] }]

theorem C1_roundtrip_witness :
    CollectionOk c1Nodes c1Ways c1Rels
      ∧ (fetch_all_nodes_and_tags (loadAll emptyStore c1Nodes c1Ways c1Rels)
            = c1Nodes
        ∧ fetch_all_ways_and_tags (loadAll emptyStore c1Nodes c1Ways c1Rels)
            = c1Ways
        ∧ fetch_all_relations_and_tags (loadAll emptyStore c1Nodes c1Ways c1Rels)
            = c1Rels) :=
  ⟨by decide, C1_roundtrip c1Nodes c1Ways c1Rels (by decide)⟩
